import Mathlib

/-!
Verification development for the poly_oracle change-detection and alerting
engine (Go sources internal/monitor/monitor.go and internal/monitor/welford.go).

Modelling conventions:
* Go float64 values are modelled as exact real numbers (ℝ); float literals
  become the corresponding rational constants.
* Go int counters are modelled as ℕ.
* The mutable per-series state table (a Go map with pointer values) is
  modelled as a function String → Option MarketState, updated functionally.
* Wall-clock timestamps (time.Time / time.Duration) are modelled as real
  numbers passed explicitly (the Go code reads time.Now(); the model takes
  the current time as a parameter); the UpdatedAt / DetectedAt fields,
  which no claim depends on, are omitted.
* Go map iteration order (used only when collecting groups in GroupByEvent)
  is unspecified; the model fixes first-insertion order.  sort.Slice is an
  unstable sort; the model uses insertion sort, which likewise produces a
  list sorted under the same comparator.
-/

namespace PolyOracle

/-- Monitor configuration, from monitor.go (`type Config struct`). -/
structure Config where
  WindowSize : Nat
  Alpha : ℝ
  Ceiling : ℝ
  Threshold : ℝ
  Volume24hrMin : ℝ
  Volume1wkMin : ℝ
  Volume1moMin : ℝ
  TopK : Nat
  CooldownMultiplier : Nat
  CheckpointInterval : Nat

/-- Default configuration, from monitor.go (`func DefaultConfig`). -/
noncomputable def DefaultConfig : Config where
  WindowSize := 3
  Alpha := 0.1
  Ceiling := 10.0
  Threshold := 3.0
  Volume24hrMin := 25000
  Volume1wkMin := 100000
  Volume1moMin := 500000
  TopK := 10
  CooldownMultiplier := 5
  CheckpointInterval := 12

/-- A market snapshot, from models/event.go (`type Market struct`); only the
fields read by the monitor are modelled. -/
structure Market where
  ID : String
  EventID : String
  Title : String
  EventURL : String
  MarketQuestion : String
  YesProbability : ℝ
  Volume24hr : ℝ
  Volume1wk : ℝ
  Volume1mo : ℝ
  Liquidity : ℝ
  Active : Bool
  Closed : Bool

/-- Per-series monitor state, from models/state.go (`type MarketState struct`). -/
structure MarketState where
  MarketID : String
  WelfordCount : Nat
  WelfordMean : ℝ
  WelfordM2 : ℝ
  AvgDepth : ℝ
  TCBuffer : List ℝ
  TCIndex : Nat
  LastPrice : ℝ
  LastSigma : ℝ
  LastVolume : ℝ

/-- A candidate alert, from models/state.go (`type Alert struct`). -/
structure Alert where
  MarketID : String
  EventTitle : String
  EventURL : String
  MarketQuestion : String
  FinalScore : ℝ
  IsAlert : Bool
  HellingerDist : ℝ
  LiqPressure : ℝ
  InstEnergy : ℝ
  TC : ℝ
  OldProb : ℝ
  NewProb : ℝ
  PriceDelta : ℝ
  VolumeDelta : ℝ
  Depth : ℝ

/-- An alert group for one parent event, from models/state.go
(`type EventGroup struct`). -/
structure EventGroup where
  EventID : String
  EventTitle : String
  EventURL : String
  BestScore : ℝ
  Markets : List Alert

/-- Constant from welford.go: `Epsilon = 1e-9`. -/
noncomputable def Epsilon : ℝ := 1e-9

/-- Constant from welford.go: `Delta = 0.005` (the sigma floor). -/
noncomputable def Delta : ℝ := 0.005

/-- Welford online update, from welford.go (`func UpdateWelford`). -/
noncomputable def UpdateWelford (state : MarketState) (price : ℝ) : MarketState :=
  let count := state.WelfordCount + 1
  let delta := price - state.WelfordMean
  let mean := state.WelfordMean + delta / (count : ℝ)
  let delta2 := price - mean
  { state with
      WelfordCount := count
      WelfordMean := mean
      WelfordM2 := state.WelfordM2 + delta * delta2 }

/-- Current noise estimate, from welford.go (`func GetSigma`). -/
noncomputable def GetSigma (state : MarketState) : ℝ :=
  if state.WelfordCount < 2 then 0.01
  else max (Real.sqrt (state.WelfordM2 / ((state.WelfordCount : ℝ) - 1))) Delta

/-- Trajectory-buffer ring write, from welford.go (`func UpdateTCBuffer`). -/
def UpdateTCBuffer (state : MarketState) (value : ℝ) (windowSize : Nat) : MarketState :=
  if state.TCBuffer.length < windowSize then
    { state with
        TCBuffer := state.TCBuffer ++ [value]
        TCIndex := (state.TCIndex + 1) % windowSize }
  else
    { state with
        TCBuffer := state.TCBuffer.set state.TCIndex value
        TCIndex := (state.TCIndex + 1) % windowSize }

/-- Error-function approximation, from monitor.go (`func erf`,
Abramowitz–Stegun polynomial). -/
noncomputable def erf (x : ℝ) : ℝ :=
  let a1 : ℝ := 0.254829592
  let a2 : ℝ := -0.284496736
  let a3 : ℝ := 1.421413741
  let a4 : ℝ := -1.453152027
  let a5 : ℝ := 1.061405429
  let p : ℝ := 0.3275911
  let sign : ℝ := if x < 0 then -1 else 1
  let ax := |x|
  let t := 1 / (1 + p * ax)
  let y := 1 - (((((a5 * t + a4) * t) + a3) * t + a2) * t + a1) * t * Real.exp (-(ax * ax))
  sign * y

/-- The Hellinger-style divergence computed in processMarket (monitor.go,
`hDist := math.Sqrt(1 - (math.Sqrt(p1*p0) + math.Sqrt((1-p1)*(1-p0))))`). -/
noncomputable def hellingerDist (p0 p1 : ℝ) : ℝ :=
  Real.sqrt (1 - (Real.sqrt (p1 * p0) + Real.sqrt ((1 - p1) * (1 - p0))))

/-- Scoring step for one series, from monitor.go (`func (m *Monitor)
processMarket`): returns the updated state and the produced alert record. -/
noncomputable def processMarket (cfg : Config) (state : MarketState) (market : Market)
    (volumeDelta : ℝ) : MarketState × Alert :=
  let p0 := state.LastPrice
  let p1 := market.YesProbability
  let hDist := hellingerDist p0 p1
  let priceDelta := |p1 - p0|
  let turnover := market.Volume24hr / (state.AvgDepth + Epsilon)
  let liqPressure := erf turnover
  let instEnergy := hDist * liqPressure / (state.LastSigma + Epsilon)
  let direction : ℝ := if p1 < p0 then -1 else if p1 = p0 then 0 else 1
  let state1 := UpdateTCBuffer state (instEnergy * direction) cfg.WindowSize
  let tc := |state1.TCBuffer.sum|
  let finalScore := instEnergy * Real.sqrt (tc + Epsilon)
  let state2 :=
    if finalScore < cfg.Ceiling then
      let s := UpdateWelford state1 p1
      { s with AvgDepth := (1 - cfg.Alpha) * s.AvgDepth + cfg.Alpha * market.Liquidity }
    else state1
  (state2,
   { MarketID := market.ID
     EventTitle := market.Title
     EventURL := market.EventURL
     MarketQuestion := market.MarketQuestion
     FinalScore := finalScore
     IsAlert := decide (finalScore > cfg.Threshold)
     HellingerDist := hDist
     LiqPressure := liqPressure
     InstEnergy := instEnergy
     TC := tc
     OldProb := p0
     NewProb := p1
     PriceDelta := priceDelta
     VolumeDelta := volumeDelta
     Depth := market.Liquidity })

/-- The instantaneous energy computed in processMarket, named for reuse in
statements. -/
noncomputable def instEnergyOf (state : MarketState) (market : Market) : ℝ :=
  hellingerDist state.LastPrice market.YesProbability *
    erf (market.Volume24hr / (state.AvgDepth + Epsilon)) / (state.LastSigma + Epsilon)

/-- The sign of this cycle's move, as computed in processMarket. -/
noncomputable def directionOf (state : MarketState) (market : Market) : ℝ :=
  if market.YesProbability < state.LastPrice then -1
  else if market.YesProbability = state.LastPrice then 0
  else 1

/-- The state after the trajectory-buffer write of processMarket. -/
noncomputable def tcStateOf (cfg : Config) (state : MarketState) (market : Market) :
    MarketState :=
  UpdateTCBuffer state (instEnergyOf state market * directionOf state market) cfg.WindowSize

/-- The trajectory consistency computed in processMarket. -/
noncomputable def tcOf (cfg : Config) (state : MarketState) (market : Market) : ℝ :=
  |(tcStateOf cfg state market).TCBuffer.sum|

/-- The final composite score computed in processMarket. -/
noncomputable def finalScoreOf (cfg : Config) (state : MarketState) (market : Market) : ℝ :=
  instEnergyOf state market * Real.sqrt (tcOf cfg state market + Epsilon)

/-- The state returned by processMarket (baseline updated only below the
ceiling). -/
noncomputable def postStateOf (cfg : Config) (state : MarketState) (market : Market) :
    MarketState :=
  if finalScoreOf cfg state market < cfg.Ceiling then
    let s := UpdateWelford (tcStateOf cfg state market) market.YesProbability
    { s with AvgDepth := (1 - cfg.Alpha) * s.AvgDepth + cfg.Alpha * market.Liquidity }
  else tcStateOf cfg state market

/-- The alert record returned by processMarket. -/
noncomputable def alertOf (cfg : Config) (state : MarketState) (market : Market)
    (volumeDelta : ℝ) : Alert :=
  { MarketID := market.ID
    EventTitle := market.Title
    EventURL := market.EventURL
    MarketQuestion := market.MarketQuestion
    FinalScore := finalScoreOf cfg state market
    IsAlert := decide (finalScoreOf cfg state market > cfg.Threshold)
    HellingerDist := hellingerDist state.LastPrice market.YesProbability
    LiqPressure := erf (market.Volume24hr / (state.AvgDepth + Epsilon))
    InstEnergy := instEnergyOf state market
    TC := tcOf cfg state market
    OldProb := state.LastPrice
    NewProb := market.YesProbability
    PriceDelta := |market.YesProbability - state.LastPrice|
    VolumeDelta := volumeDelta
    Depth := market.Liquidity }

/-- processMarket, re-expressed through its named intermediate quantities
(definitional). -/
lemma processMarket_eq (cfg : Config) (state : MarketState) (market : Market)
    (volumeDelta : ℝ) :
    processMarket cfg state market volumeDelta =
      (postStateOf cfg state market, alertOf cfg state market volumeDelta) := rfl

/-- Volume/activity gate, from monitor.go (`func (m *Monitor)
shouldProcessMarket`). -/
noncomputable def shouldProcessMarket (cfg : Config) (market : Market) : Bool :=
  if !market.Active || market.Closed then false
  else
    decide (market.Volume24hr ≥ cfg.Volume24hrMin) ||
    decide (market.Volume1wk ≥ cfg.Volume1wkMin) ||
    decide (market.Volume1mo ≥ cfg.Volume1moMin)

/-- The per-series state table (Go: `states map[string]*models.MarketState`). -/
abbrev States := String → Option MarketState

def States.empty : States := fun _ => none

def States.update (s : States) (id : String) (st : MarketState) : States :=
  fun k => if k = id then some st else s k

/-- The fresh zero-valued state inserted by getOrCreateState (monitor.go):
all numeric fields are Go zero values except LastSigma = 0.01. -/
noncomputable def freshState (marketID : String) : MarketState :=
  { MarketID := marketID
    WelfordCount := 0
    WelfordMean := 0
    WelfordM2 := 0
    AvgDepth := 0
    TCBuffer := []
    TCIndex := 0
    LastPrice := 0
    LastSigma := 0.01
    LastVolume := 0 }

/-- Body of the per-market loop of ProcessPoll (monitor.go): gate, lazy state
creation, cold-start initialization, scoring, last-observed updates, and
alert collection. -/
noncomputable def processOne (cfg : Config) (s : States) (alerts : List Alert)
    (market : Market) : States × List Alert :=
  if shouldProcessMarket cfg market then
    let state :=
      match s market.ID with
      | some st => st
      | none => freshState market.ID
    if state.WelfordCount = 0 then
      (States.update s market.ID
        { state with
            LastPrice := market.YesProbability
            LastVolume := market.Volume24hr
            WelfordCount := 1
            LastSigma := 0.01
            AvgDepth := market.Liquidity },
       alerts)
    else
      let volumeDelta0 := market.Volume24hr - state.LastVolume
      let volumeDelta := if volumeDelta0 < 0 then 0 else volumeDelta0
      let res := processMarket cfg state market volumeDelta
      let state3 :=
        { res.1 with
            LastPrice := market.YesProbability
            LastVolume := market.Volume24hr
            LastSigma := GetSigma res.1 }
      (States.update s market.ID state3,
       if res.2.IsAlert then alerts ++ [res.2] else alerts)
  else (s, alerts)

/-- One polling cycle, from monitor.go (`func (m *Monitor) ProcessPoll`):
returns the new state table and the emitted candidate alerts. -/
noncomputable def ProcessPoll (cfg : Config) (states : States) (markets : List Market) :
    States × List Alert :=
  markets.foldl (fun acc m => processOne cfg acc.1 acc.2 m) (states, [])

/-- The state written on a series' first sighting (cold start): sample count
forced to 1 with the Welford mean/M2 left at zero, last-observed fields from
the snapshot. -/
noncomputable def coldInit (market : Market) : MarketState :=
  { MarketID := market.ID
    WelfordCount := 1
    WelfordMean := 0
    WelfordM2 := 0
    AvgDepth := market.Liquidity
    TCBuffer := []
    TCIndex := 0
    LastPrice := market.YesProbability
    LastSigma := 0.01
    LastVolume := market.Volume24hr }

/-- The zero-floored volume delta computed in ProcessPoll. -/
noncomputable def volDelta (st : MarketState) (market : Market) : ℝ :=
  if market.Volume24hr - st.LastVolume < 0 then 0 else market.Volume24hr - st.LastVolume

/-- The per-series state stored after a warm (scored) cycle. -/
noncomputable def warmNext (cfg : Config) (st : MarketState) (market : Market) : MarketState :=
  { postStateOf cfg st market with
      LastPrice := market.YesProbability
      LastVolume := market.Volume24hr
      LastSigma := GetSigma (postStateOf cfg st market) }

@[simp] lemma States.update_same (s : States) (id : String) (st : MarketState) :
    States.update s id st id = some st := by
  unfold States.update
  simp

lemma States.update_ne (s : States) (id : String) (st : MarketState) (k : String)
    (h : k ≠ id) : States.update s id st k = s k := by
  unfold States.update
  simp [h]

@[simp] lemma States.empty_apply (k : String) : States.empty k = none := rfl

lemma processOne_skip (cfg : Config) (s : States) (al : List Alert) (market : Market)
    (hgate : shouldProcessMarket cfg market = false) :
    processOne cfg s al market = (s, al) := by
  unfold processOne
  rw [hgate]
  simp

lemma processOne_cold (cfg : Config) (s : States) (al : List Alert) (market : Market)
    (hgate : shouldProcessMarket cfg market = true) (hnone : s market.ID = none) :
    processOne cfg s al market = (States.update s market.ID (coldInit market), al) := by
  unfold processOne
  rw [hgate, hnone]
  rfl

lemma processOne_warm (cfg : Config) (s : States) (al : List Alert) (market : Market)
    (st : MarketState) (hgate : shouldProcessMarket cfg market = true)
    (hsome : s market.ID = some st) (hcount : st.WelfordCount ≠ 0) :
    processOne cfg s al market =
      (States.update s market.ID (warmNext cfg st market),
       if (alertOf cfg st market (volDelta st market)).IsAlert then
         al ++ [alertOf cfg st market (volDelta st market)]
       else al) := by
  unfold processOne
  rw [hgate, hsome]
  simp only [hcount, eq_self_iff_true, if_true, if_false]
  rfl

/-- Parent-event id extraction, from monitor.go (`func extractEventID`):
strips the trailing `:seriesID` suffix at the last colon. -/
def extractEventID (marketID : String) : String :=
  match marketID.toList.reverse.findIdx? (fun c => c == ':') with
  | some j => String.mk (marketID.toList.take (marketID.toList.length - 1 - j))
  | none => marketID

/-- One step of the grouping loop of GroupByEvent (monitor.go): create the
group on first sight (Go zero value BestScore = 0), append the alert, and
raise the best score if this alert beats it. -/
noncomputable def insertAlert (groups : List EventGroup) (alert : Alert) : List EventGroup :=
  let eid := extractEventID alert.MarketID
  let base :=
    if groups.any (fun g => g.EventID == eid) then groups
    else groups ++ [{ EventID := eid
                      EventTitle := alert.EventTitle
                      EventURL := alert.EventURL
                      BestScore := 0
                      Markets := [] }]
  base.map (fun g =>
    if g.EventID = eid then
      { g with
          Markets := g.Markets ++ [alert]
          BestScore := if alert.FinalScore > g.BestScore then alert.FinalScore else g.BestScore }
    else g)

/-- Descending-score comparator on alerts (Go: `func(i, j int) bool
\x7b return group.Markets[i].FinalScore > group.Markets[j].FinalScore \x7d`,
taken reflexively as the sortedness relation). -/
def alertGE (a b : Alert) : Prop := b.FinalScore ≤ a.FinalScore

/-- Descending-best-score comparator on groups. -/
def groupGE (a b : EventGroup) : Prop := b.BestScore ≤ a.BestScore

noncomputable instance : DecidableRel alertGE := fun a b =>
  inferInstanceAs (Decidable (b.FinalScore ≤ a.FinalScore))

noncomputable instance : DecidableRel groupGE := fun a b =>
  inferInstanceAs (Decidable (b.BestScore ≤ a.BestScore))

instance : IsTotal Alert alertGE := ⟨fun a b => le_total b.FinalScore a.FinalScore⟩

instance : IsTrans Alert alertGE := ⟨fun _ _ _ h1 h2 => le_trans h2 h1⟩

instance : IsTotal EventGroup groupGE := ⟨fun a b => le_total b.BestScore a.BestScore⟩

instance : IsTrans EventGroup groupGE := ⟨fun _ _ _ h1 h2 => le_trans h2 h1⟩

/-- Grouping of candidate alerts by parent event, from monitor.go
(`func (m *Monitor) GroupByEvent`); each group's member list is sorted by
score descending. -/
noncomputable def GroupByEvent (alerts : List Alert) : List EventGroup :=
  (alerts.foldl insertAlert []).map
    (fun g => { g with Markets := g.Markets.insertionSort alertGE })

/-- Record of the most recently sent alert for a series, from monitor.go
(`type notifiedRecord struct`). -/
structure NotifiedRecord where
  Direction : String
  NewProb : ℝ
  SentAt : ℝ

/-- The notified-markets table (Go: `notifiedMarkets map[string]notifiedRecord`). -/
abbrev Notified := String → Option NotifiedRecord

/-- High-conviction zone, from monitor.go (`func isDeterministicZone`). -/
def isDeterministicZone (p : ℝ) : Prop := p > 0.90 ∨ p < 0.10

noncomputable instance (p : ℝ) : Decidable (isDeterministicZone p) :=
  inferInstanceAs (Decidable (p > 0.90 ∨ p < 0.10))

/-- Move direction, from monitor.go (`func getDirection`). -/
noncomputable def getDirection (oldProb newProb : ℝ) : String :=
  if newProb > oldProb then "increase"
  else if newProb < oldProb then "decrease"
  else "no_change"

/-- Whether one alert survives the cooldown check in FilterRecentlySent
(monitor.go): it is dropped exactly when a record exists, is within the
cooldown window, has the same direction, and the alert is not newly
entering the deterministic zone. -/
noncomputable def keepAlert (notified : Notified) (now cooldown : ℝ) (alert : Alert) : Bool :=
  match notified alert.MarketID with
  | none => true
  | some r =>
    if now - r.SentAt < cooldown then
      if r.Direction = getDirection alert.OldProb alert.NewProb ∧
          ¬(isDeterministicZone alert.NewProb ∧ ¬isDeterministicZone r.NewProb) then false
      else true
    else true

/-- Cooldown filtering, from monitor.go (`func (m *Monitor)
FilterRecentlySent`): drops suppressed members, drops empty groups, and sets
the surviving group's best score to its first surviving member's score. -/
noncomputable def FilterRecentlySent (notified : Notified) (groups : List EventGroup)
    (cooldown now : ℝ) : List EventGroup :=
  groups.foldl (fun result group =>
    match group.Markets.filter (keepAlert notified now cooldown) with
    | [] => result
    | a :: rest => result ++ [{ group with Markets := a :: rest, BestScore := a.FinalScore }]) []

/-- Sorting of groups by best score descending (monitor.go, sort.Slice in
PostProcessAlerts). -/
noncomputable def sortGroups (groups : List EventGroup) : List EventGroup :=
  groups.insertionSort groupGE

/-- Truncation to the configured top-K (monitor.go, PostProcessAlerts). -/
def truncateTopK (k : Nat) (groups : List EventGroup) : List EventGroup :=
  if groups.length > k then groups.take k else groups

/-- Post-processing pipeline, from monitor.go (`func (m *Monitor)
PostProcessAlerts`): group, sort by best score, truncate to top-K, then
apply cooldown filtering. -/
noncomputable def PostProcessAlerts (cfg : Config) (notified : Notified) (alerts : List Alert)
    (pollInterval now : ℝ) : List EventGroup :=
  let groups := sortGroups (GroupByEvent alerts)
  let groups := truncateTopK cfg.TopK groups
  let cooldown := (cfg.CooldownMultiplier : ℝ) * pollInterval
  FilterRecentlySent notified groups cooldown now

/-! ### Basic field lemmas for the state-updating operations -/

@[simp] lemma UpdateTCBuffer_WelfordCount (st : MarketState) (v : ℝ) (w : Nat) :
    (UpdateTCBuffer st v w).WelfordCount = st.WelfordCount := by
  unfold UpdateTCBuffer; split <;> rfl

@[simp] lemma UpdateTCBuffer_WelfordMean (st : MarketState) (v : ℝ) (w : Nat) :
    (UpdateTCBuffer st v w).WelfordMean = st.WelfordMean := by
  unfold UpdateTCBuffer; split <;> rfl

@[simp] lemma UpdateTCBuffer_WelfordM2 (st : MarketState) (v : ℝ) (w : Nat) :
    (UpdateTCBuffer st v w).WelfordM2 = st.WelfordM2 := by
  unfold UpdateTCBuffer; split <;> rfl

@[simp] lemma UpdateTCBuffer_AvgDepth (st : MarketState) (v : ℝ) (w : Nat) :
    (UpdateTCBuffer st v w).AvgDepth = st.AvgDepth := by
  unfold UpdateTCBuffer; split <;> rfl

@[simp] lemma UpdateTCBuffer_LastPrice (st : MarketState) (v : ℝ) (w : Nat) :
    (UpdateTCBuffer st v w).LastPrice = st.LastPrice := by
  unfold UpdateTCBuffer; split <;> rfl

@[simp] lemma UpdateTCBuffer_LastSigma (st : MarketState) (v : ℝ) (w : Nat) :
    (UpdateTCBuffer st v w).LastSigma = st.LastSigma := by
  unfold UpdateTCBuffer; split <;> rfl

@[simp] lemma UpdateTCBuffer_LastVolume (st : MarketState) (v : ℝ) (w : Nat) :
    (UpdateTCBuffer st v w).LastVolume = st.LastVolume := by
  unfold UpdateTCBuffer; split <;> rfl

@[simp] lemma UpdateWelford_WelfordCount (st : MarketState) (p : ℝ) :
    (UpdateWelford st p).WelfordCount = st.WelfordCount + 1 := rfl

@[simp] lemma UpdateWelford_AvgDepth (st : MarketState) (p : ℝ) :
    (UpdateWelford st p).AvgDepth = st.AvgDepth := rfl

@[simp] lemma UpdateWelford_TCBuffer (st : MarketState) (p : ℝ) :
    (UpdateWelford st p).TCBuffer = st.TCBuffer := rfl

@[simp] lemma UpdateWelford_TCIndex (st : MarketState) (p : ℝ) :
    (UpdateWelford st p).TCIndex = st.TCIndex := rfl

@[simp] lemma UpdateWelford_LastSigma (st : MarketState) (p : ℝ) :
    (UpdateWelford st p).LastSigma = st.LastSigma := rfl

lemma UpdateWelford_WelfordMean (st : MarketState) (p : ℝ) :
    (UpdateWelford st p).WelfordMean =
      st.WelfordMean + (p - st.WelfordMean) / ((st.WelfordCount + 1 : Nat) : ℝ) := rfl

lemma UpdateWelford_WelfordM2 (st : MarketState) (p : ℝ) :
    (UpdateWelford st p).WelfordM2 =
      st.WelfordM2 + (p - st.WelfordMean) *
        (p - (st.WelfordMean + (p - st.WelfordMean) / ((st.WelfordCount + 1 : Nat) : ℝ))) := rfl

/-- The sigma floor: GetSigma never goes below Delta = 0.005. -/
lemma Delta_le_getSigma (st : MarketState) : Delta ≤ GetSigma st := by
  unfold GetSigma
  split
  · unfold Delta; norm_num
  · exact le_max_right _ _

/-! ### Claim C5: GetSigma fallback, floor, and constant-feed behaviour -/

/-- Feeding a value into the Welford estimator n times. -/
noncomputable def feedConstant (c : ℝ) (n : Nat) (st : MarketState) : MarketState :=
  match n with
  | 0 => st
  | Nat.succ m => UpdateWelford (feedConstant c m st) c

lemma feedConstant_spec (c : ℝ) (st : MarketState) (h0 : st.WelfordCount = 0)
    (hm : st.WelfordMean = 0) (h2 : st.WelfordM2 = 0) :
    ∀ n, 1 ≤ n → (feedConstant c n st).WelfordCount = n ∧
      (feedConstant c n st).WelfordMean = c ∧ (feedConstant c n st).WelfordM2 = 0 := by
  intro n hn
  induction n with
  | zero => omega
  | succ m ih =>
    rcases Nat.eq_zero_or_pos m with hm0 | hmpos
    · subst hm0
      refine ⟨?_, ?_, ?_⟩
      · simp [feedConstant, h0]
      · simp [feedConstant, UpdateWelford_WelfordMean, h0, hm]
      · simp [feedConstant, UpdateWelford_WelfordM2, h0, hm, h2]
    · obtain ⟨ihc, ihm, ih2⟩ := ih hmpos
      refine ⟨?_, ?_, ?_⟩
      · simp [feedConstant, ihc]
      · simp [feedConstant, UpdateWelford_WelfordMean, ihm]
      · simp [feedConstant, UpdateWelford_WelfordM2, ihm, ih2]

/-- Claim C5: GetSigma returns the fixed fallback 0.01 whenever fewer than two
samples have been recorded; for two or more samples it returns the sample
standard deviation sqrt(M2/(count-1)) floored at 0.005; feeding a constant
value N ≥ 2 times into a fresh estimator via UpdateWelford yields exactly the
floor value 0.005; and GetSigma never returns a value below 0.005. -/
theorem C5_getSigma_fallback_floor_constant :
    (∀ st : MarketState, st.WelfordCount < 2 → GetSigma st = 0.01) ∧
    (∀ st : MarketState, 2 ≤ st.WelfordCount →
      GetSigma st = max (Real.sqrt (st.WelfordM2 / ((st.WelfordCount : ℝ) - 1))) 0.005) ∧
    (∀ (c : ℝ) (st : MarketState), st.WelfordCount = 0 → st.WelfordMean = 0 →
      st.WelfordM2 = 0 → ∀ n, 2 ≤ n → GetSigma (feedConstant c n st) = 0.005) ∧
    (∀ st : MarketState, 0.005 ≤ GetSigma st) := by
  refine ⟨?_, ?_, ?_, ?_⟩
  · intro st h
    unfold GetSigma
    rw [if_pos h]
  · intro st h
    unfold GetSigma Delta
    rw [if_neg (by omega)]
  · intro c st h0 hm h2 n hn
    obtain ⟨hc, _, hM2⟩ := feedConstant_spec c st h0 hm h2 n (by omega)
    unfold GetSigma Delta
    rw [if_neg (by omega), hM2]
    rw [zero_div, Real.sqrt_zero]
    exact max_eq_right (by norm_num)
  · intro st
    have h := Delta_le_getSigma st
    unfold Delta at h
    exact h

/-- Witness for C5 at a concrete input: a fresh estimator fed the constant 1
twice yields exactly the floor 0.005. -/
theorem C5_witness : GetSigma (feedConstant 1 2 (freshState "ev:mk")) = 0.005 :=
  C5_getSigma_fallback_floor_constant.2.2.1 1 (freshState "ev:mk") rfl rfl rfl 2 (by decide)

/-! ### Claim C2: the baseline-update guard of processMarket -/

lemma postStateOf_guard (cfg : Config) (state : MarketState) (market : Market) :
    ((postStateOf cfg state market).WelfordCount =
      if finalScoreOf cfg state market < cfg.Ceiling then
        state.WelfordCount + 1 else state.WelfordCount) ∧
    ((postStateOf cfg state market).WelfordMean =
      if finalScoreOf cfg state market < cfg.Ceiling then
        (UpdateWelford state market.YesProbability).WelfordMean else state.WelfordMean) ∧
    ((postStateOf cfg state market).WelfordM2 =
      if finalScoreOf cfg state market < cfg.Ceiling then
        (UpdateWelford state market.YesProbability).WelfordM2 else state.WelfordM2) ∧
    ((postStateOf cfg state market).AvgDepth =
      if finalScoreOf cfg state market < cfg.Ceiling then
        (1 - cfg.Alpha) * state.AvgDepth + cfg.Alpha * market.Liquidity
      else state.AvgDepth) := by
  unfold postStateOf
  by_cases h : finalScoreOf cfg state market < cfg.Ceiling
  · rw [if_pos h, if_pos h, if_pos h, if_pos h, if_pos h]
    refine ⟨?_, ?_, ?_, ?_⟩ <;>
      simp [tcStateOf, UpdateWelford_WelfordMean, UpdateWelford_WelfordM2]
  · rw [if_neg h, if_neg h, if_neg h, if_neg h, if_neg h]
    refine ⟨?_, ?_, ?_, ?_⟩ <;> simp [tcStateOf]

/-- Claim C2 (amended): the Welford fields and the smoothed average depth are
updated by processMarket exactly when the final score is strictly below the
ceiling; a score greater than or equal to the ceiling (including a score
exactly equal to it) leaves all four fields unchanged. -/
theorem C2_baseline_update_guard (cfg : Config) (state : MarketState) (market : Market)
    (volumeDelta : ℝ) :
    ((processMarket cfg state market volumeDelta).1.WelfordCount =
      if (processMarket cfg state market volumeDelta).2.FinalScore < cfg.Ceiling then
        state.WelfordCount + 1 else state.WelfordCount) ∧
    ((processMarket cfg state market volumeDelta).1.WelfordMean =
      if (processMarket cfg state market volumeDelta).2.FinalScore < cfg.Ceiling then
        (UpdateWelford state market.YesProbability).WelfordMean else state.WelfordMean) ∧
    ((processMarket cfg state market volumeDelta).1.WelfordM2 =
      if (processMarket cfg state market volumeDelta).2.FinalScore < cfg.Ceiling then
        (UpdateWelford state market.YesProbability).WelfordM2 else state.WelfordM2) ∧
    ((processMarket cfg state market volumeDelta).1.AvgDepth =
      if (processMarket cfg state market volumeDelta).2.FinalScore < cfg.Ceiling then
        (1 - cfg.Alpha) * state.AvgDepth + cfg.Alpha * market.Liquidity
      else state.AvgDepth) := by
  rw [processMarket_eq]
  exact postStateOf_guard cfg state market

/-- Concrete configuration for the C2 counterexample: ceiling 0. -/
noncomputable def C2cfg : Config where
  WindowSize := 1
  Alpha := 0
  Ceiling := 0
  Threshold := 0
  Volume24hrMin := 0
  Volume1wkMin := 0
  Volume1moMin := 0
  TopK := 1
  CooldownMultiplier := 1
  CheckpointInterval := 1

/-- Concrete state for the C2 counterexample. -/
noncomputable def C2state : MarketState :=
  { freshState "ev:mk" with WelfordCount := 1 }

/-- Concrete market for the C2 counterexample: same probability as the stored
one, so the final score is exactly 0 = ceiling. -/
noncomputable def C2market : Market where
  ID := "ev:mk"
  EventID := "ev"
  Title := "t"
  EventURL := "u"
  MarketQuestion := "q"
  YesProbability := 0
  Volume24hr := 0
  Volume1wk := 0
  Volume1mo := 0
  Liquidity := 0
  Active := true
  Closed := false

/-- Counterexample to claim C2 as stated: at this input the final score is
exactly equal to the configured ceiling, yet the Welford estimator is NOT
updated (the sample count stays 1 where an update would make it 2) — so a
score exactly equal to the ceiling does not update the baseline. -/
lemma C2_score_eq_zero : finalScoreOf C2cfg C2state C2market = 0 := by
  have hinst : instEnergyOf C2state C2market = 0 := by
    unfold instEnergyOf hellingerDist C2state C2market freshState
    norm_num
  unfold finalScoreOf
  rw [hinst, zero_mul]

theorem C2_counterexample :
    (processMarket C2cfg C2state C2market 0).2.FinalScore = C2cfg.Ceiling ∧
    (processMarket C2cfg C2state C2market 0).1.WelfordCount = C2state.WelfordCount ∧
    (∀ p : ℝ, (UpdateWelford C2state p).WelfordCount ≠ C2state.WelfordCount) := by
  refine ⟨?_, ?_, ?_⟩
  · rw [processMarket_eq]
    show finalScoreOf C2cfg C2state C2market = C2cfg.Ceiling
    rw [C2_score_eq_zero]; rfl
  · rw [processMarket_eq]
    show (postStateOf C2cfg C2state C2market).WelfordCount = C2state.WelfordCount
    have h := (postStateOf_guard C2cfg C2state C2market).1
    rw [C2_score_eq_zero] at h
    rw [h, if_neg (by unfold C2cfg; norm_num)]
  · intro p
    simp [C2state, freshState]

/-! ### Claim C6: ring semantics of the trajectory buffer -/

/-- Pushing a list of values into the trajectory buffer in order. -/
def pushAll (W : Nat) (vs : List ℝ) (st : MarketState) : MarketState :=
  vs.foldl (fun s v => UpdateTCBuffer s v W) st

/-- Overwriting slot i and rotating to the next slot advances the ring by one:
the oldest entry is dropped and the new value appended at the logical end. -/
lemma ring_set_rotate (l : List ℝ) (i : Nat) (v : ℝ) (h : i < l.length) :
    (l.set i v).rotate ((i + 1) % l.length) = (l.rotate i).drop 1 ++ [v] := by
  have hset : l.set i v = l.take i ++ v :: l.drop (i + 1) := List.set_eq_take_cons_drop v h
  have hlentake : (l.take i).length = i := by
    rw [List.length_take]; omega
  rcases Nat.lt_or_ge (i + 1) l.length with hlt | hge
  · have h1 : (i + 1) % l.length = i + 1 := Nat.mod_eq_of_lt hlt
    have h2 : i + 1 ≤ (l.set i v).length := by
      rw [List.length_set]; omega
    rw [h1, List.rotate_eq_drop_append_take h2,
      List.rotate_eq_drop_append_take (le_of_lt h), hset]
    rw [List.drop_append_eq_append_drop, List.take_append_eq_append_take,
      List.drop_append_eq_append_drop, hlentake]
    have e1 : (l.take i).drop (i + 1) = [] := by
      apply List.drop_eq_nil_of_le
      omega
    have e2 : i + 1 - i = 1 := by omega
    have e3 : (l.take i).take (i + 1) = l.take i := by
      apply List.take_of_length_le
      omega
    have e4 : (l.drop i).length = l.length - i := List.length_drop i l
    have e5 : 1 - (l.length - i) = 0 := by omega
    have e6 : (l.drop i).drop 1 = l.drop (i + 1) := by
      rw [List.drop_drop]
    rw [e1, e2, e3, e4, e5, e6, List.drop_zero]
    simp
  · have hn : i + 1 = l.length := by omega
    have h1 : (i + 1) % l.length = 0 := by
      rw [hn, Nat.mod_self]
    rw [h1, List.rotate_zero, hset,
      List.rotate_eq_drop_append_take (le_of_lt h)]
    rw [List.drop_append_eq_append_drop]
    have e4 : (l.drop i).length = l.length - i := List.length_drop i l
    have e5 : 1 - (l.length - i) = 0 := by omega
    have e6 : (l.drop i).drop 1 = l.drop (i + 1) := by
      rw [List.drop_drop]
    rw [e4, e5, e6, List.drop_zero]
    have e7 : l.drop (i + 1) = [] := by
      apply List.drop_eq_nil_of_le
      omega
    simp [e7]

lemma pushAll_inv (W : Nat) (hW : 1 ≤ W) (st0 : MarketState) (hbuf : st0.TCBuffer = [])
    (hidx : st0.TCIndex = 0) :
    ∀ vs : List ℝ,
      (pushAll W vs st0).TCBuffer.length = min vs.length W ∧
      (pushAll W vs st0).TCIndex = vs.length % W ∧
      (pushAll W vs st0).TCBuffer.rotate ((pushAll W vs st0).TCIndex) =
        vs.drop (vs.length - W) := by
  intro vs
  induction vs using List.reverseRecOn with
  | nil => simp [pushAll, hbuf, hidx]
  | append_singleton xs x ih =>
    obtain ⟨ihlen, ihidx, ihrot⟩ := ih
    have hstep : pushAll W (xs ++ [x]) st0 = UpdateTCBuffer (pushAll W xs st0) x W := by
      unfold pushAll
      rw [List.foldl_append]
      rfl
    rcases Nat.lt_or_ge xs.length W with hK | hK
    · -- fill phase: the buffer is not yet full
      have hKlen : (pushAll W xs st0).TCBuffer.length = xs.length := by
        rw [ihlen]; omega
      have hbufeq : (pushAll W xs st0).TCBuffer = xs := by
        have hmod : xs.length % W = xs.length := Nat.mod_eq_of_lt hK
        have h1 := ihrot
        rw [ihidx, hmod] at h1
        rw [← hKlen] at h1
        rw [List.rotate_length] at h1
        rw [h1]
        have : xs.length - W = 0 := by omega
        rw [hKlen, this, List.drop_zero]
      have hTB : (UpdateTCBuffer (pushAll W xs st0) x W).TCBuffer =
          (pushAll W xs st0).TCBuffer ++ [x] := by
        unfold UpdateTCBuffer
        rw [if_pos (by omega)]
      have hTI : (UpdateTCBuffer (pushAll W xs st0) x W).TCIndex =
          ((pushAll W xs st0).TCIndex + 1) % W := by
        unfold UpdateTCBuffer
        rw [if_pos (by omega)]
      refine ⟨?_, ?_, ?_⟩
      · rw [hstep, hTB]
        simp only [List.length_append, hKlen, List.length_cons, List.length_nil]
        omega
      · rw [hstep, hTI]
        simp only [List.length_append, List.length_cons, List.length_nil]
        rw [ihidx, Nat.mod_add_mod]
      · rw [hstep, hTB, hTI]
        rw [hbufeq, ihidx, Nat.mod_add_mod]
        have hdrop : (xs ++ [x]).length - W = 0 := by
          simp only [List.length_append, List.length_cons, List.length_nil]
          omega
        rw [hdrop, List.drop_zero]
        rcases Nat.lt_or_ge (xs.length + 1) W with hlt | hge
        · have : (xs.length + 1) % W = xs.length + 1 := Nat.mod_eq_of_lt hlt
          rw [this]
          have hlen2 : (xs ++ [x]).length = xs.length + 1 := by simp
          rw [← hlen2, List.rotate_length]
        · have hWeq : xs.length + 1 = W := by omega
          rw [← hWeq, Nat.mod_self, List.rotate_zero]
    · -- ring phase: the buffer is full
      have hKlen : (pushAll W xs st0).TCBuffer.length = W := by
        rw [ihlen]; omega
      have hTB : (UpdateTCBuffer (pushAll W xs st0) x W).TCBuffer =
          (pushAll W xs st0).TCBuffer.set ((pushAll W xs st0).TCIndex) x := by
        unfold UpdateTCBuffer
        rw [if_neg (by omega)]
      have hTI : (UpdateTCBuffer (pushAll W xs st0) x W).TCIndex =
          ((pushAll W xs st0).TCIndex + 1) % W := by
        unfold UpdateTCBuffer
        rw [if_neg (by omega)]
      have hidxlt : (pushAll W xs st0).TCIndex < W := by
        rw [ihidx]
        exact Nat.mod_lt _ (by omega)
      refine ⟨?_, ?_, ?_⟩
      · rw [hstep, hTB]
        simp only [List.length_set, hKlen, List.length_append, List.length_cons,
          List.length_nil]
        omega
      · rw [hstep, hTI]
        simp only [List.length_append, List.length_cons, List.length_nil]
        rw [ihidx, Nat.mod_add_mod]
      · rw [hstep, hTB, hTI]
        have hkey := ring_set_rotate (pushAll W xs st0).TCBuffer
          ((pushAll W xs st0).TCIndex) x (by omega)
        rw [hKlen] at hkey
        rw [hkey, ihrot]
        rw [List.drop_drop]
        have hd : (xs ++ [x]).length - W = (xs.length - W) + 1 := by
          simp only [List.length_append, List.length_cons, List.length_nil]
          omega
        rw [hd]
        rw [List.drop_append_of_le_length (by omega)]

/-- Claim C6: starting from an empty trajectory buffer with window size W ≥ 1,
pushing the values vs yields a buffer of length min(K, W) (K the number of
pushes), write index K mod W, and — read in ring order starting at the write
index — exactly the W most recent pushed values in push order (all pushed
values when K ≤ W); in particular for K ≥ W the buffer holds exactly the W
most recent values, each write past the fill point overwriting the logically
oldest entry. -/
theorem C6_tcbuffer_ring (W : Nat) (hW : 1 ≤ W) (st0 : MarketState)
    (hbuf : st0.TCBuffer = []) (hidx : st0.TCIndex = 0) (vs : List ℝ) :
    (pushAll W vs st0).TCBuffer.length = min vs.length W ∧
    (pushAll W vs st0).TCIndex = vs.length % W ∧
    (pushAll W vs st0).TCBuffer.rotate ((pushAll W vs st0).TCIndex) =
      vs.drop (vs.length - W) ∧
    (pushAll W vs st0).TCBuffer.Perm (vs.drop (vs.length - W)) := by
  obtain ⟨h1, h2, h3⟩ := pushAll_inv W hW st0 hbuf hidx vs
  exact ⟨h1, h2, h3, h3 ▸ (List.rotate_perm _ _).symm⟩

/-- Witness for C6: pushing two values through a window of size 1 keeps only
the most recent one. -/
theorem C6_witness :
    (pushAll 1 [0, 1] (freshState "ev:mk")).TCBuffer.length = min ([0, 1] : List ℝ).length 1 ∧
    (pushAll 1 [0, 1] (freshState "ev:mk")).TCIndex = ([0, 1] : List ℝ).length % 1 ∧
    (pushAll 1 [0, 1] (freshState "ev:mk")).TCBuffer.rotate
      ((pushAll 1 [0, 1] (freshState "ev:mk")).TCIndex) =
      ([0, 1] : List ℝ).drop (([0, 1] : List ℝ).length - 1) ∧
    (pushAll 1 [0, 1] (freshState "ev:mk")).TCBuffer.Perm
      (([0, 1] : List ℝ).drop (([0, 1] : List ℝ).length - 1)) :=
  C6_tcbuffer_ring 1 (by decide) (freshState "ev:mk") rfl rfl [0, 1]

/-! ### Claim C1: properties of the Hellinger-style divergence -/

lemma sqrt_mul_le_avg {a b : ℝ} (ha : 0 ≤ a) (hb : 0 ≤ b) :
    Real.sqrt (a * b) ≤ (a + b) / 2 := by
  have h : a * b ≤ ((a + b) / 2) ^ 2 := by nlinarith [sq_nonneg (a - b)]
  calc Real.sqrt (a * b) ≤ Real.sqrt (((a + b) / 2) ^ 2) := Real.sqrt_le_sqrt h
    _ = (a + b) / 2 := Real.sqrt_sq (by positivity)

lemma sqrt_mul_lt_avg {a b : ℝ} (ha : 0 ≤ a) (hb : 0 ≤ b) (hne : a ≠ b) :
    Real.sqrt (a * b) < (a + b) / 2 := by
  have h : a * b < ((a + b) / 2) ^ 2 := by
    nlinarith [pow_two_pos_of_ne_zero (sub_ne_zero.mpr hne)]
  calc Real.sqrt (a * b) < Real.sqrt (((a + b) / 2) ^ 2) :=
        Real.sqrt_lt_sqrt (mul_nonneg ha hb) h
    _ = (a + b) / 2 := Real.sqrt_sq (by positivity)

lemma bhatta_le_one {p0 p1 : ℝ} (h00 : 0 ≤ p0) (h01 : p0 ≤ 1) (h10 : 0 ≤ p1) (h11 : p1 ≤ 1) :
    Real.sqrt (p1 * p0) + Real.sqrt ((1 - p1) * (1 - p0)) ≤ 1 := by
  have h1 := sqrt_mul_le_avg h10 h00
  have h2 := sqrt_mul_le_avg (by linarith : (0:ℝ) ≤ 1 - p1) (by linarith : (0:ℝ) ≤ 1 - p0)
  linarith

/-- Claim C1: the divergence computed by processMarket is symmetric in p0 and
p1, lies in [0,1], is zero exactly when p0 = p1, and the argument of the outer
square root is nonnegative for all p0, p1 in [0,1] (so the computation is
well defined — no NaN — including at the 0/1 boundaries). -/
theorem C1_hellinger_divergence (p0 p1 : ℝ) (h00 : 0 ≤ p0) (h01 : p0 ≤ 1)
    (h10 : 0 ≤ p1) (h11 : p1 ≤ 1) :
    hellingerDist p0 p1 = hellingerDist p1 p0 ∧
    0 ≤ hellingerDist p0 p1 ∧
    hellingerDist p0 p1 ≤ 1 ∧
    (hellingerDist p0 p1 = 0 ↔ p0 = p1) ∧
    0 ≤ 1 - (Real.sqrt (p1 * p0) + Real.sqrt ((1 - p1) * (1 - p0))) := by
  have hle := bhatta_le_one h00 h01 h10 h11
  refine ⟨?_, ?_, ?_, ?_, by linarith⟩
  · unfold hellingerDist
    rw [mul_comm p1 p0, mul_comm (1 - p1) (1 - p0)]
  · exact Real.sqrt_nonneg _
  · unfold hellingerDist
    have hnn : 0 ≤ Real.sqrt (p1 * p0) + Real.sqrt ((1 - p1) * (1 - p0)) :=
      add_nonneg (Real.sqrt_nonneg _) (Real.sqrt_nonneg _)
    calc Real.sqrt (1 - (Real.sqrt (p1 * p0) + Real.sqrt ((1 - p1) * (1 - p0))))
        ≤ Real.sqrt 1 := Real.sqrt_le_sqrt (by linarith)
      _ = 1 := Real.sqrt_one
  · constructor
    · intro h0
      by_contra hne
      have hlt : Real.sqrt (p1 * p0) + Real.sqrt ((1 - p1) * (1 - p0)) < 1 := by
        have h1 := sqrt_mul_lt_avg h10 h00 (fun he => hne (he.symm))
        have h2 := sqrt_mul_le_avg (by linarith : (0:ℝ) ≤ 1 - p1)
          (by linarith : (0:ℝ) ≤ 1 - p0)
        linarith
      have hpos : 0 < hellingerDist p0 p1 := by
        unfold hellingerDist
        exact Real.sqrt_pos.mpr (by linarith)
      exact absurd h0 (ne_of_gt hpos)
    · intro h
      subst h
      unfold hellingerDist
      rw [Real.sqrt_mul_self h00, Real.sqrt_mul_self (by linarith : (0:ℝ) ≤ 1 - p0)]
      have : 1 - (p0 + (1 - p0)) = 0 := by ring
      rw [this, Real.sqrt_zero]

/-- Witness for C1 at the boundary input p0 = 0, p1 = 1. -/
theorem C1_witness :
    hellingerDist 0 1 = hellingerDist 1 0 ∧
    0 ≤ hellingerDist 0 1 ∧
    hellingerDist 0 1 ≤ 1 ∧
    (hellingerDist 0 1 = 0 ↔ (0:ℝ) = 1) ∧
    0 ≤ 1 - (Real.sqrt ((1:ℝ) * 0) + Real.sqrt ((1 - 1) * (1 - 0))) :=
  C1_hellinger_divergence 0 1 le_rfl zero_le_one zero_le_one le_rfl

/-! ### Claim C4: cooldown suppression semantics of FilterRecentlySent -/

/-- The claim-side suppression condition: a record exists for the series, its
send time is within the cooldown window, the direction matches, and the alert
is not newly entering the deterministic zone. -/
def cooldownSuppressedSpec (notified : Notified) (now cooldown : ℝ) (alert : Alert) : Prop :=
  ∃ r : NotifiedRecord, notified alert.MarketID = some r ∧ now - r.SentAt < cooldown ∧
    r.Direction = getDirection alert.OldProb alert.NewProb ∧
    ¬(isDeterministicZone alert.NewProb ∧ ¬isDeterministicZone r.NewProb)

lemma keepAlert_false_iff (notified : Notified) (now cooldown : ℝ) (alert : Alert) :
    keepAlert notified now cooldown alert = false ↔
      cooldownSuppressedSpec notified now cooldown alert := by
  unfold keepAlert cooldownSuppressedSpec
  cases hrec : notified alert.MarketID with
  | none => simp
  | some r =>
    simp only [hrec, Option.some.injEq]
    by_cases hwin : now - r.SentAt < cooldown
    · rw [if_pos hwin]
      by_cases hc : r.Direction = getDirection alert.OldProb alert.NewProb ∧
          ¬(isDeterministicZone alert.NewProb ∧ ¬isDeterministicZone r.NewProb)
      · rw [if_pos hc]
        constructor
        · intro _
          exact ⟨r, rfl, hwin, hc.1, hc.2⟩
        · intro _
          rfl
      · rw [if_neg hc]
        constructor
        · intro h
          exact absurd h (by simp)
        · rintro ⟨r2, hr2, h1, h2, h3⟩
          subst hr2
          exact absurd ⟨h2, h3⟩ hc
    · constructor
      · intro h
        rw [if_neg hwin] at h
        exact absurd h (by simp)
      · rintro ⟨r2, hr2, h1, h2, h3⟩
        subst hr2
        exact absurd h1 hwin

/-- The contribution of a single group to the cooldown-filtered output. -/
noncomputable def filterGroup (notified : Notified) (cooldown now : ℝ) (g : EventGroup) :
    Option EventGroup :=
  match g.Markets.filter (keepAlert notified now cooldown) with
  | [] => none
  | a :: rest => some { g with Markets := a :: rest, BestScore := a.FinalScore }

lemma FilterRecentlySent_foldl (notified : Notified) (cooldown now : ℝ) :
    ∀ (groups : List EventGroup) (acc : List EventGroup),
      groups.foldl (fun result group =>
        match group.Markets.filter (keepAlert notified now cooldown) with
        | [] => result
        | a :: rest =>
            result ++ [{ group with Markets := a :: rest, BestScore := a.FinalScore }]) acc =
      acc ++ groups.filterMap (filterGroup notified cooldown now) := by
  intro groups
  induction groups with
  | nil => intro acc; simp
  | cons g gs ih =>
    intro acc
    rw [List.foldl_cons, List.filterMap_cons]
    cases hf : g.Markets.filter (keepAlert notified now cooldown) with
    | nil =>
      have hg : filterGroup notified cooldown now g = none := by
        unfold filterGroup
        rw [hf]
      rw [hg]
      exact ih acc
    | cons a rest =>
      have hg : filterGroup notified cooldown now g =
          some { g with Markets := a :: rest, BestScore := a.FinalScore } := by
        unfold filterGroup
        rw [hf]
      rw [hg]
      have h2 := ih (acc ++ [{ g with Markets := a :: rest, BestScore := a.FinalScore }])
      rw [List.append_assoc] at h2
      exact h2

lemma FilterRecentlySent_eq_filterMap (notified : Notified) (groups : List EventGroup)
    (cooldown now : ℝ) :
    FilterRecentlySent notified groups cooldown now =
      groups.filterMap (filterGroup notified cooldown now) := by
  unfold FilterRecentlySent
  rw [FilterRecentlySent_foldl]
  simp

/-- Claim C4: within FilterRecentlySent, an alert whose series has a
notification record within the cooldown window is suppressed iff its direction
equals the record's direction and it does not newly enter the deterministic
zone (> 0.90 or < 0.10 while the record's probability was not in that zone);
groups with all members suppressed are dropped, surviving groups keep exactly
the surviving members, and the surviving group's best score is its first
surviving member's score — which is the maximum surviving score whenever the
group's member list was sorted by score descending. -/
theorem C4_cooldown_semantics (notified : Notified) (groups : List EventGroup)
    (cooldown now : ℝ) :
    (∀ alert : Alert,
      keepAlert notified now cooldown alert = false ↔
        cooldownSuppressedSpec notified now cooldown alert) ∧
    (FilterRecentlySent notified groups cooldown now =
      groups.filterMap (filterGroup notified cooldown now)) ∧
    (∀ g : EventGroup, g.Markets.Sorted alertGE →
      ∀ (a : Alert) (rest : List Alert),
        g.Markets.filter (keepAlert notified now cooldown) = a :: rest →
        ∀ b ∈ a :: rest, b.FinalScore ≤ a.FinalScore) := by
  refine ⟨fun alert => keepAlert_false_iff notified now cooldown alert,
    FilterRecentlySent_eq_filterMap notified groups cooldown now, ?_⟩
  intro g hsort a rest hf b hb
  have hsorted : (g.Markets.filter (keepAlert notified now cooldown)).Sorted alertGE :=
    List.Pairwise.filter (keepAlert notified now cooldown) hsort
  rw [hf] at hsorted
  rcases List.mem_cons.mp hb with rfl | hb2
  · exact le_rfl
  · exact (List.sorted_cons.mp hsorted).1 b hb2

/-- Witness for C4 at a concrete input: one group with a single alert and an
empty notification table; nothing is suppressed and the best score bound is
discharged at the singleton member list. -/
theorem C4_witness :
    (∀ alert : Alert,
      keepAlert (fun _ => none) 0 1 alert = false ↔
        cooldownSuppressedSpec (fun _ => none) 0 1 alert) ∧
    (FilterRecentlySent (fun _ => none) [] 1 0 =
      ([] : List EventGroup).filterMap (filterGroup (fun _ => none) 1 0)) ∧
    (∀ g : EventGroup, g.Markets.Sorted alertGE →
      ∀ (a : Alert) (rest : List Alert),
        g.Markets.filter (keepAlert (fun _ => none) 0 1) = a :: rest →
        ∀ b ∈ a :: rest, b.FinalScore ≤ a.FinalScore) :=
  C4_cooldown_semantics (fun _ => none) [] 1 0

/-! ### Claim C3: grouping, ranking, truncation, and cooldown ordering -/

/-- Go's incremental best-score accumulation over a member list (zero-valued
start, raise on strictly greater). -/
noncomputable def bestFold (ms : List Alert) : ℝ :=
  ms.foldl (fun b a => if a.FinalScore > b then a.FinalScore else b) 0

lemma bestFold_general :
    ∀ (ms : List Alert) (b : ℝ),
      (ms.foldl (fun b a => if a.FinalScore > b then a.FinalScore else b) b = b ∨
        ms.foldl (fun b a => if a.FinalScore > b then a.FinalScore else b) b ∈
          ms.map Alert.FinalScore) ∧
      b ≤ ms.foldl (fun b a => if a.FinalScore > b then a.FinalScore else b) b ∧
      ∀ a ∈ ms, a.FinalScore ≤
        ms.foldl (fun b a => if a.FinalScore > b then a.FinalScore else b) b := by
  intro ms
  induction ms with
  | nil => intro b; refine ⟨Or.inl rfl, le_rfl, by simp⟩
  | cons a t ih =>
    intro b
    rw [List.foldl_cons]
    obtain ⟨ihmem, ihle, ihbd⟩ := ih (if a.FinalScore > b then a.FinalScore else b)
    have hble : b ≤ (if a.FinalScore > b then a.FinalScore else b) := by
      split
      · linarith [lt_of_lt_of_le (by assumption : b < a.FinalScore) le_rfl]
      · exact le_rfl
    have hale : a.FinalScore ≤ (if a.FinalScore > b then a.FinalScore else b) := by
      split
      · exact le_rfl
      · linarith [not_lt.mp (by assumption : ¬a.FinalScore > b)]
    refine ⟨?_, le_trans hble ihle, ?_⟩
    · rcases ihmem with h | h
      · rw [h]
        by_cases hab : a.FinalScore > b
        · right
          rw [if_pos hab]
          exact List.mem_map_of_mem _ (List.mem_cons_self a t)
        · left
          rw [if_neg hab]
      · right
        rw [List.map_cons]
        exact List.mem_cons_of_mem _ h
    · intro x hx
      rcases List.mem_cons.mp hx with rfl | hxt
      · exact le_trans hale ihle
      · exact ihbd x hxt

lemma bestFold_max (ms : List Alert) (hnn : ∀ a ∈ ms, 0 ≤ a.FinalScore) (hne : ms ≠ []) :
    bestFold ms ∈ ms.map Alert.FinalScore ∧ ∀ a ∈ ms, a.FinalScore ≤ bestFold ms := by
  obtain ⟨hmem, _, hbd⟩ := bestFold_general ms 0
  refine ⟨?_, hbd⟩
  rcases hmem with h | h
  · obtain ⟨a0, ha0⟩ := List.exists_mem_of_ne_nil ms hne
    have h1 : a0.FinalScore ≤ bestFold ms := hbd a0 ha0
    have h2 : 0 ≤ a0.FinalScore := hnn a0 ha0
    have h3 : bestFold ms = a0.FinalScore := by
      unfold bestFold
      rw [h]
      unfold bestFold at h1
      rw [h] at h1
      linarith
    rw [h3]
    exact List.mem_map_of_mem _ ha0
  · exact h

/-- Invariant of the grouping fold: every accumulated group is nonempty, its
best score is the Go fold of its member scores, and every member belongs to
the parent event of the group and comes from the processed alerts. -/
def groupInv (A : List Alert) (g : EventGroup) : Prop :=
  g.Markets ≠ [] ∧ g.BestScore = bestFold g.Markets ∧
  ∀ a ∈ g.Markets, extractEventID a.MarketID = g.EventID ∧ a ∈ A

lemma insertAlert_inv (A : List Alert) (acc : List EventGroup) (al : Alert)
    (hacc : ∀ g ∈ acc, groupInv A g) (hal : al ∈ A) :
    ∀ g ∈ insertAlert acc al, groupInv A g := by
  intro g' hg'
  unfold insertAlert at hg'
  set eid := extractEventID al.MarketID with heid
  obtain ⟨g, hgbase, hfg⟩ := List.mem_map.mp hg'
  have hbase : g ∈ acc ∨ g = { EventID := eid
                               EventTitle := al.EventTitle
                               EventURL := al.EventURL
                               BestScore := 0
                               Markets := [] } := by
    by_cases hany : acc.any (fun g => g.EventID == eid)
    · rw [if_pos hany] at hgbase
      exact Or.inl hgbase
    · rw [if_neg hany] at hgbase
      rcases List.mem_append.mp hgbase with h | h
      · exact Or.inl h
      · exact Or.inr (List.mem_singleton.mp h)
  by_cases hid : g.EventID = eid
  · rw [if_pos hid] at hfg
    subst hfg
    rcases hbase with hin | hnew
    · obtain ⟨hne, hbest, hmem⟩ := hacc g hin
      refine ⟨by simp, ?_, ?_⟩
      · unfold bestFold
        rw [List.foldl_append, List.foldl_cons, List.foldl_nil]
        unfold bestFold at hbest
        rw [← hbest]
      · intro a ha
        rcases List.mem_append.mp ha with h | h
        · exact hmem a h
        · rw [List.mem_singleton.mp h]
          exact ⟨hid ▸ heid ▸ rfl, hal⟩
    · subst hnew
      refine ⟨by simp, ?_, ?_⟩
      · unfold bestFold
        simp
      · intro a ha
        simp only [List.nil_append, List.mem_singleton] at ha
        subst ha
        exact ⟨rfl, hal⟩
  · rw [if_neg hid] at hfg
    subst hfg
    rcases hbase with hin | hnew
    · exact hacc g hin
    · exfalso
      apply hid
      rw [hnew]

lemma groupFold_inv (A : List Alert) :
    ∀ (l : List Alert) (acc : List EventGroup),
      (∀ g ∈ acc, groupInv A g) → (∀ a ∈ l, a ∈ A) →
      ∀ g ∈ l.foldl insertAlert acc, groupInv A g := by
  intro l
  induction l with
  | nil => intro acc hacc _; exact hacc
  | cons a t ih =>
    intro acc hacc hl
    rw [List.foldl_cons]
    exact ih (insertAlert acc a)
      (insertAlert_inv A acc a hacc (hl a (List.mem_cons_self a t)))
      (fun x hx => hl x (List.mem_cons_of_mem a hx))

lemma groupByEvent_spec (alerts : List Alert) :
    ∀ g ∈ GroupByEvent alerts,
      g.Markets.Sorted alertGE ∧ g.Markets ≠ [] ∧
      (∀ a ∈ g.Markets, extractEventID a.MarketID = g.EventID ∧ a ∈ alerts) ∧
      ((∀ a ∈ alerts, 0 ≤ a.FinalScore) →
        g.BestScore ∈ g.Markets.map Alert.FinalScore ∧
        ∀ a ∈ g.Markets, a.FinalScore ≤ g.BestScore) := by
  intro g hg
  unfold GroupByEvent at hg
  obtain ⟨g0, hg0, hfg⟩ := List.mem_map.mp hg
  have hinv : groupInv alerts g0 :=
    groupFold_inv alerts alerts [] (by simp) (fun a ha => ha) g0 hg0
  obtain ⟨hne, hbest, hmem⟩ := hinv
  subst hfg
  have hperm : List.Perm (g0.Markets.insertionSort alertGE) g0.Markets :=
    List.perm_insertionSort alertGE g0.Markets
  refine ⟨List.sorted_insertionSort alertGE g0.Markets, ?_, ?_, ?_⟩
  · intro hnil
    exact hne (List.Perm.eq_nil (hnil ▸ hperm.symm))
  · intro a ha
    exact hmem a ((List.mem_insertionSort alertGE).mp ha)
  · intro hnn
    have hnn0 : ∀ a ∈ g0.Markets, 0 ≤ a.FinalScore :=
      fun a ha => hnn a (hmem a ha).2
    obtain ⟨hin, hbd⟩ := bestFold_max g0.Markets hnn0 hne
    constructor
    · show g0.BestScore ∈ (g0.Markets.insertionSort alertGE).map Alert.FinalScore
      rw [hbest]
      exact (hperm.map Alert.FinalScore).mem_iff.mpr hin
    · intro a ha
      show a.FinalScore ≤ g0.BestScore
      rw [hbest]
      exact hbd a ((List.mem_insertionSort alertGE).mp ha)

lemma truncateTopK_length (k : Nat) (gs : List EventGroup) :
    (truncateTopK k gs).length ≤ k := by
  unfold truncateTopK
  split
  · simp [Nat.min_le_left]
  · omega

/-- Claim C3: GroupByEvent groups candidate alerts by parent event (trailing
series suffix stripped), each group's member list is sorted by score
descending with best score equal to the maximum member score (for the
nonnegative scores the engine produces); PostProcessAlerts sorts groups by
best score descending, truncates to at most TopK, and only afterwards applies
cooldown filtering — so the result has at most TopK groups, and every
returned group stems from the original top-K list (a fully suppressed top-K
group is never replaced by a group outside the original top-K). -/
theorem C3_grouping_ranking_topk (cfg : Config) (notified : Notified) (alerts : List Alert)
    (pollInterval now : ℝ) (hnn : ∀ a ∈ alerts, 0 ≤ a.FinalScore) :
    (∀ g ∈ GroupByEvent alerts,
      g.Markets.Sorted alertGE ∧
      (∀ a ∈ g.Markets, extractEventID a.MarketID = g.EventID ∧ a ∈ alerts) ∧
      g.BestScore ∈ g.Markets.map Alert.FinalScore ∧
      (∀ a ∈ g.Markets, a.FinalScore ≤ g.BestScore)) ∧
    (sortGroups (GroupByEvent alerts)).Sorted groupGE ∧
    (PostProcessAlerts cfg notified alerts pollInterval now =
      FilterRecentlySent notified
        (truncateTopK cfg.TopK (sortGroups (GroupByEvent alerts)))
        ((cfg.CooldownMultiplier : ℝ) * pollInterval) now) ∧
    (PostProcessAlerts cfg notified alerts pollInterval now).length ≤ cfg.TopK ∧
    (∀ g' ∈ PostProcessAlerts cfg notified alerts pollInterval now,
      ∃ g ∈ truncateTopK cfg.TopK (sortGroups (GroupByEvent alerts)),
        g'.EventID = g.EventID ∧ g'.Markets.Sublist g.Markets) := by
  have hpost : PostProcessAlerts cfg notified alerts pollInterval now =
      FilterRecentlySent notified
        (truncateTopK cfg.TopK (sortGroups (GroupByEvent alerts)))
        ((cfg.CooldownMultiplier : ℝ) * pollInterval) now := rfl
  refine ⟨?_, List.sorted_insertionSort groupGE (GroupByEvent alerts), hpost, ?_, ?_⟩
  · intro g hg
    obtain ⟨hs, _, hm, hb⟩ := groupByEvent_spec alerts g hg
    exact ⟨hs, hm, hb hnn⟩
  · rw [hpost, FilterRecentlySent_eq_filterMap]
    calc ((truncateTopK cfg.TopK (sortGroups (GroupByEvent alerts))).filterMap
            (filterGroup notified ((cfg.CooldownMultiplier : ℝ) * pollInterval) now)).length
        ≤ (truncateTopK cfg.TopK (sortGroups (GroupByEvent alerts))).length :=
          List.length_filterMap_le _ _
      _ ≤ cfg.TopK := truncateTopK_length _ _
  · intro g' hg'
    rw [hpost, FilterRecentlySent_eq_filterMap] at hg'
    obtain ⟨g, hgmem, hsome⟩ := List.mem_filterMap.mp hg'
    refine ⟨g, hgmem, ?_⟩
    unfold filterGroup at hsome
    cases hf : g.Markets.filter
        (keepAlert notified now ((cfg.CooldownMultiplier : ℝ) * pollInterval)) with
    | nil =>
      rw [hf] at hsome
      exact absurd hsome (by simp)
    | cons a rest =>
      rw [hf] at hsome
      have hg'' := (Option.some.injEq _ _).mp hsome
      constructor
      · rw [← hg'']
      · rw [← hg'']
        show (a :: rest).Sublist g.Markets
        rw [← hf]
        exact List.filter_sublist g.Markets

/-- Witness for C3 on the empty alert list with the default configuration. -/
theorem C3_witness :
    (∀ g ∈ GroupByEvent [],
      g.Markets.Sorted alertGE ∧
      (∀ a ∈ g.Markets, extractEventID a.MarketID = g.EventID ∧ a ∈ ([] : List Alert)) ∧
      g.BestScore ∈ g.Markets.map Alert.FinalScore ∧
      (∀ a ∈ g.Markets, a.FinalScore ≤ g.BestScore)) ∧
    (sortGroups (GroupByEvent [])).Sorted groupGE ∧
    (PostProcessAlerts DefaultConfig (fun _ => none) [] 0 0 =
      FilterRecentlySent (fun _ => none)
        (truncateTopK DefaultConfig.TopK (sortGroups (GroupByEvent [])))
        ((DefaultConfig.CooldownMultiplier : ℝ) * 0) 0) ∧
    (PostProcessAlerts DefaultConfig (fun _ => none) [] 0 0).length ≤ DefaultConfig.TopK ∧
    (∀ g' ∈ PostProcessAlerts DefaultConfig (fun _ => none) [] 0 0,
      ∃ g ∈ truncateTopK DefaultConfig.TopK (sortGroups (GroupByEvent [])),
        g'.EventID = g.EventID ∧ g'.Markets.Sublist g.Markets) :=
  C3_grouping_ranking_topk DefaultConfig (fun _ => none) [] 0 0 (by simp)

/-! ### Claim C10: the first sighting never contributes to the running stats -/

lemma hellinger_self (p : ℝ) (h0 : 0 ≤ p) (h1 : p ≤ 1) : hellingerDist p p = 0 := by
  unfold hellingerDist
  rw [Real.sqrt_mul_self h0, Real.sqrt_mul_self (by linarith : (0:ℝ) ≤ 1 - p)]
  have h : 1 - (p + (1 - p)) = 0 := by ring
  rw [h, Real.sqrt_zero]

/-- The concrete market used for the C10 scenario: probability p, ample 24h
volume, 50K liquidity. -/
noncomputable def C10market (p : ℝ) : Market where
  ID := "ev:mk"
  EventID := "ev"
  Title := "t"
  EventURL := "u"
  MarketQuestion := "q"
  YesProbability := p
  Volume24hr := 100000
  Volume1wk := 0
  Volume1mo := 0
  Liquidity := 50000
  Active := true
  Closed := false

lemma C10_gate (p : ℝ) : shouldProcessMarket DefaultConfig (C10market p) = true := by
  unfold shouldProcessMarket C10market DefaultConfig
  simp only [Bool.not_true, Bool.false_or, Bool.or_eq_true, decide_eq_true_eq]
  rw [if_neg (by simp)]
  simp only [Bool.or_eq_true, decide_eq_true_eq]
  left
  left
  norm_num

lemma C10_cycle1 (p : ℝ) :
    ProcessPoll DefaultConfig States.empty [C10market p] =
      (States.update States.empty "ev:mk" (coldInit (C10market p)), []) := by
  show processOne DefaultConfig States.empty [] (C10market p) = _
  exact processOne_cold _ _ _ _ (C10_gate p) rfl

lemma C10_score_zero (p : ℝ) (h0 : 0 ≤ p) (h1 : p ≤ 1) :
    finalScoreOf DefaultConfig (coldInit (C10market p)) (C10market p) = 0 := by
  have hinst : instEnergyOf (coldInit (C10market p)) (C10market p) = 0 := by
    unfold instEnergyOf
    have hl : (coldInit (C10market p)).LastPrice = p := rfl
    have hy : (C10market p).YesProbability = p := rfl
    rw [hl, hy, hellinger_self p h0 h1, zero_mul, zero_div]
  unfold finalScoreOf
  rw [hinst, zero_mul]

lemma C10_cycle2 (p : ℝ) :
    ProcessPoll DefaultConfig
        (States.update States.empty "ev:mk" (coldInit (C10market p))) [C10market p] =
      (States.update (States.update States.empty "ev:mk" (coldInit (C10market p))) "ev:mk"
        (warmNext DefaultConfig (coldInit (C10market p)) (C10market p)),
       if (alertOf DefaultConfig (coldInit (C10market p)) (C10market p)
            (volDelta (coldInit (C10market p)) (C10market p))).IsAlert then
         [] ++ [alertOf DefaultConfig (coldInit (C10market p)) (C10market p)
            (volDelta (coldInit (C10market p)) (C10market p))]
       else []) := by
  show processOne DefaultConfig
      (States.update States.empty "ev:mk" (coldInit (C10market p))) [] (C10market p) = _
  exact processOne_warm _ _ _ _ (coldInit (C10market p)) (C10_gate p)
    (States.update_same _ _ _) (by simp [coldInit])

/-- Claim C10: the first sighting sets WelfordCount to 1 without feeding the
first observed probability into the mean or M2 (both stay 0); a second cycle
at the same probability p yields running mean p/2, running M2 p^2/2, and — for
p above 0.005·sqrt 2 — a stored noise estimate of p/sqrt 2 rather than the
0.005 floor. -/
theorem C10_first_sample_skipped (p : ℝ) (h0 : 0 ≤ p) (h1 : p ≤ 1)
    (hp : 0.005 * Real.sqrt 2 < p) :
    ∃ st1 st2 : MarketState,
      (ProcessPoll DefaultConfig States.empty [C10market p]).1 "ev:mk" = some st1 ∧
      st1.WelfordCount = 1 ∧ st1.WelfordMean = 0 ∧ st1.WelfordM2 = 0 ∧
      (ProcessPoll DefaultConfig
          (ProcessPoll DefaultConfig States.empty [C10market p]).1 [C10market p]).1
        "ev:mk" = some st2 ∧
      st2.WelfordCount = 2 ∧ st2.WelfordMean = p / 2 ∧ st2.WelfordM2 = p ^ 2 / 2 ∧
      GetSigma st2 = p / Real.sqrt 2 ∧ st2.LastSigma = p / Real.sqrt 2 ∧
      0.005 < p / Real.sqrt 2 := by
  have hs2pos : (0:ℝ) < Real.sqrt 2 := Real.sqrt_pos.mpr (by norm_num)
  have hfloor : (0.005:ℝ) < p / Real.sqrt 2 := (lt_div_iff₀ hs2pos).mpr hp
  have hg := postStateOf_guard DefaultConfig (coldInit (C10market p)) (C10market p)
  rw [C10_score_zero p h0 h1] at hg
  have h010 : (0:ℝ) < DefaultConfig.Ceiling := by unfold DefaultConfig; norm_num
  rw [if_pos h010, if_pos h010, if_pos h010, if_pos h010] at hg
  obtain ⟨hgc, hgm, hg2, _⟩ := hg
  have hcount :
      (postStateOf DefaultConfig (coldInit (C10market p)) (C10market p)).WelfordCount = 2 := by
    rw [hgc]
    rfl
  have hmean :
      (postStateOf DefaultConfig (coldInit (C10market p)) (C10market p)).WelfordMean =
        p / 2 := by
    rw [hgm, UpdateWelford_WelfordMean]
    show (0:ℝ) + (p - 0) / ((1 + 1 : Nat) : ℝ) = p / 2
    norm_num
  have hm2 :
      (postStateOf DefaultConfig (coldInit (C10market p)) (C10market p)).WelfordM2 =
        p ^ 2 / 2 := by
    rw [hg2, UpdateWelford_WelfordM2]
    show (0:ℝ) + (p - 0) * (p - ((0:ℝ) + (p - 0) / ((1 + 1 : Nat) : ℝ))) = p ^ 2 / 2
    push_cast
    ring
  have hsig : GetSigma (postStateOf DefaultConfig (coldInit (C10market p)) (C10market p)) =
      p / Real.sqrt 2 := by
    unfold GetSigma
    rw [if_neg (by rw [hcount]; omega), hcount, hm2]
    have hc1 : ((2:ℕ):ℝ) - 1 = 1 := by norm_num
    rw [hc1, div_one]
    rw [Real.sqrt_div (sq_nonneg p) 2, Real.sqrt_sq h0]
    exact max_eq_left (le_of_lt hfloor)
  refine ⟨coldInit (C10market p),
    warmNext DefaultConfig (coldInit (C10market p)) (C10market p), ?_, rfl, rfl, rfl,
    ?_, ?_, ?_, ?_, ?_, ?_, hfloor⟩
  · rw [C10_cycle1]
    show States.update States.empty "ev:mk" (coldInit (C10market p)) "ev:mk" = _
    exact States.update_same _ _ _
  · rw [C10_cycle1, C10_cycle2]
    show States.update (States.update States.empty "ev:mk" (coldInit (C10market p)))
      "ev:mk" (warmNext DefaultConfig (coldInit (C10market p)) (C10market p)) "ev:mk" = _
    exact States.update_same _ _ _
  · exact hcount
  · exact hmean
  · exact hm2
  · exact hsig
  · exact hsig

/-- Witness for C10 at p = 1. -/
theorem C10_witness :
    ∃ st1 st2 : MarketState,
      (ProcessPoll DefaultConfig States.empty [C10market 1]).1 "ev:mk" = some st1 ∧
      st1.WelfordCount = 1 ∧ st1.WelfordMean = 0 ∧ st1.WelfordM2 = 0 ∧
      (ProcessPoll DefaultConfig
          (ProcessPoll DefaultConfig States.empty [C10market 1]).1 [C10market 1]).1
        "ev:mk" = some st2 ∧
      st2.WelfordCount = 2 ∧ st2.WelfordMean = 1 / 2 ∧ st2.WelfordM2 = 1 ^ 2 / 2 ∧
      GetSigma st2 = 1 / Real.sqrt 2 ∧ st2.LastSigma = 1 / Real.sqrt 2 ∧
      (0.005:ℝ) < 1 / Real.sqrt 2 :=
  C10_first_sample_skipped 1 zero_le_one le_rfl
    (by
      have h2 : Real.sqrt 2 < 2 := by
        rw [Real.sqrt_lt' (by norm_num)]
        norm_num
      nlinarith)

/-! ### Claim C8: invariants of all reachable per-series states -/

/-- State tables reachable from the empty table by ProcessPoll cycles. -/
inductive Reachable (cfg : Config) : States → Prop where
  | empty : Reachable cfg States.empty
  | step (s : States) (ms : List Market) (h : Reachable cfg s) :
      Reachable cfg (ProcessPoll cfg s ms).1

/-- The per-series invariant: initialized sample count, bounded trajectory
buffer, floored stored noise estimate. -/
def stateInv (cfg : Config) (st : MarketState) : Prop :=
  1 ≤ st.WelfordCount ∧ st.TCBuffer.length ≤ cfg.WindowSize ∧ (0.005:ℝ) ≤ st.LastSigma

/-- The table-level invariant. -/
def tableInv (cfg : Config) (s : States) : Prop :=
  ∀ id st, s id = some st → stateInv cfg st

lemma tcStateOf_length (cfg : Config) (st : MarketState) (market : Market)
    (hlen : st.TCBuffer.length ≤ cfg.WindowSize) :
    (tcStateOf cfg st market).TCBuffer.length ≤ cfg.WindowSize := by
  unfold tcStateOf UpdateTCBuffer
  split
  · simp only [List.length_append, List.length_cons, List.length_nil]
    omega
  · simp only [List.length_set]
    exact hlen

lemma postStateOf_TCBuffer (cfg : Config) (st : MarketState) (market : Market) :
    (postStateOf cfg st market).TCBuffer = (tcStateOf cfg st market).TCBuffer := by
  unfold postStateOf
  split
  · simp
  · rfl

lemma warmNext_inv (cfg : Config) (st : MarketState) (market : Market)
    (hinv : stateInv cfg st) : stateInv cfg (warmNext cfg st market) := by
  obtain ⟨hc, hlen, _⟩ := hinv
  refine ⟨?_, ?_, ?_⟩
  · show 1 ≤ (postStateOf cfg st market).WelfordCount
    have hg := (postStateOf_guard cfg st market).1
    rw [hg]
    split <;> omega
  · show (postStateOf cfg st market).TCBuffer.length ≤ cfg.WindowSize
    rw [postStateOf_TCBuffer]
    exact tcStateOf_length cfg st market hlen
  · show (0.005:ℝ) ≤ GetSigma (postStateOf cfg st market)
    exact Delta_le_getSigma _

lemma coldInit_inv (cfg : Config) (market : Market) : stateInv cfg (coldInit market) := by
  refine ⟨le_rfl, ?_, by norm_num [coldInit]⟩
  show (0:ℕ) ≤ cfg.WindowSize
  omega

lemma tableInv_update (cfg : Config) (s : States) (id : String) (st : MarketState)
    (hs : tableInv cfg s) (hst : stateInv cfg st) :
    tableInv cfg (States.update s id st) := by
  intro k stk hk
  by_cases hid : k = id
  · subst hid
    rw [States.update_same] at hk
    cases hk
    exact hst
  · rw [States.update_ne s id st k hid] at hk
    exact hs k stk hk

lemma processOne_table_inv (cfg : Config) (s : States) (al : List Alert) (market : Market)
    (hs : tableInv cfg s) : tableInv cfg (processOne cfg s al market).1 := by
  by_cases hgate : shouldProcessMarket cfg market = true
  · cases hrec : s market.ID with
    | none =>
      rw [processOne_cold cfg s al market hgate hrec]
      exact tableInv_update cfg s market.ID (coldInit market) hs (coldInit_inv cfg market)
    | some st =>
      have hinv := hs market.ID st hrec
      have hcount : st.WelfordCount ≠ 0 := by
        have := hinv.1
        omega
      rw [processOne_warm cfg s al market st hgate hrec hcount]
      exact tableInv_update cfg s market.ID (warmNext cfg st market) hs
        (warmNext_inv cfg st market hinv)
  · rw [processOne_skip cfg s al market (by simpa using hgate)]
    exact hs

lemma ProcessPoll_table_inv (cfg : Config) :
    ∀ (ms : List Market) (s : States) (al : List Alert), tableInv cfg s →
      tableInv cfg (ms.foldl (fun acc m => processOne cfg acc.1 acc.2 m) (s, al)).1 := by
  intro ms
  induction ms with
  | nil => intro s al hs; exact hs
  | cons m rest ih =>
    intro s al hs
    rw [List.foldl_cons]
    exact ih (processOne cfg s al m).1 (processOne cfg s al m).2
      (processOne_table_inv cfg s al m hs)

/-- Claim C8: in every state table reachable by ProcessPoll cycles from the
empty table (with a positive configured window size), every stored series
state has sample count at least 1, trajectory buffer length at most the
window size, and stored noise estimate at least the 0.005 floor — in
particular never exactly zero. -/
theorem C8_reachable_state_invariants (cfg : Config) (hW : 1 ≤ cfg.WindowSize)
    (s : States) (hreach : Reachable cfg s) :
    ∀ id st, s id = some st →
      1 ≤ st.WelfordCount ∧ st.TCBuffer.length ≤ cfg.WindowSize ∧
      (0.005:ℝ) ≤ st.LastSigma ∧ st.LastSigma ≠ 0 := by
  have hmain : tableInv cfg s := by
    induction hreach with
    | empty => intro id st h; simp at h
    | step s0 ms h ih => exact ProcessPoll_table_inv cfg ms s0 [] ih
  intro id st hst
  obtain ⟨h1, h2, h3⟩ := hmain id st hst
  refine ⟨h1, h2, h3, ?_⟩
  have : (0:ℝ) < st.LastSigma := lt_of_lt_of_le (by norm_num) h3
  exact ne_of_gt this

/-- Witness for C8: the table after one cycle on one market, looked up at that
series. -/
theorem C8_witness :
    1 ≤ DefaultConfig.WindowSize ∧
    (1 ≤ (coldInit (C10market 1)).WelfordCount ∧
     (coldInit (C10market 1)).TCBuffer.length ≤ DefaultConfig.WindowSize ∧
     (0.005:ℝ) ≤ (coldInit (C10market 1)).LastSigma ∧
     (coldInit (C10market 1)).LastSigma ≠ 0) := by
  have hW : 1 ≤ DefaultConfig.WindowSize := by norm_num [DefaultConfig]
  have hreach : Reachable DefaultConfig
      (ProcessPoll DefaultConfig States.empty [C10market 1]).1 :=
    Reachable.step States.empty [C10market 1] Reachable.empty
  have hlook : (ProcessPoll DefaultConfig States.empty [C10market 1]).1 "ev:mk" =
      some (coldInit (C10market 1)) := by
    rw [C10_cycle1]
    show States.update States.empty "ev:mk" (coldInit (C10market 1)) "ev:mk" = _
    exact States.update_same _ _ _
  exact ⟨hW, C8_reachable_state_invariants DefaultConfig hW _ hreach "ev:mk"
    (coldInit (C10market 1)) hlook⟩

/-! ### Claim C9: determinism and order-independence of ProcessPoll -/

/-- Re-initialization of a stored state whose sample count is zero (the
cold-start branch taken on an existing record). -/
noncomputable def coldReinit (st : MarketState) (market : Market) : MarketState :=
  { st with
      LastPrice := market.YesProbability
      LastVolume := market.Volume24hr
      WelfordCount := 1
      LastSigma := 0.01
      AvgDepth := market.Liquidity }

/-- The state stored for a market's series by one cycle, as a function of the
pre-cycle table only. -/
noncomputable def stepStateOf (cfg : Config) (s : States) (m : Market) : Option MarketState :=
  if shouldProcessMarket cfg m then
    match s m.ID with
    | none => some (coldInit m)
    | some st =>
        if st.WelfordCount = 0 then some (coldReinit st m) else some (warmNext cfg st m)
  else s m.ID

/-- The alert emitted for a market's series by one cycle, as a function of
the pre-cycle table only. -/
noncomputable def stepAlertOf (cfg : Config) (s : States) (m : Market) : Option Alert :=
  if shouldProcessMarket cfg m then
    match s m.ID with
    | none => none
    | some st =>
        if st.WelfordCount = 0 then none
        else if (alertOf cfg st m (volDelta st m)).IsAlert then
          some (alertOf cfg st m (volDelta st m))
        else none
  else none

lemma processOne_coldReinit (cfg : Config) (s : States) (al : List Alert) (market : Market)
    (st : MarketState) (hgate : shouldProcessMarket cfg market = true)
    (hsome : s market.ID = some st) (hcount : st.WelfordCount = 0) :
    processOne cfg s al market = (States.update s market.ID (coldReinit st market), al) := by
  unfold processOne
  rw [hgate, hsome]
  simp only [hcount, eq_self_iff_true, if_true]
  rfl

lemma processOne_fst (cfg : Config) (s : States) (al : List Alert) (market : Market) :
    (processOne cfg s al market).1 =
      fun k => if k = market.ID then
        (match stepStateOf cfg s market with
         | some st => some st
         | none => s k)
      else s k := by
  by_cases hgate : shouldProcessMarket cfg market = true
  · cases hrec : s market.ID with
    | none =>
      have hstep : stepStateOf cfg s market = some (coldInit market) := by
        simp [stepStateOf, hgate, hrec]
      rw [processOne_cold cfg s al market hgate hrec]
      funext k
      rw [hstep]
      show States.update s market.ID (coldInit market) k = _
      unfold States.update
      rfl
    | some st =>
      by_cases hcount : st.WelfordCount = 0
      · have hstep : stepStateOf cfg s market = some (coldReinit st market) := by
          simp [stepStateOf, hgate, hrec, hcount]
        rw [processOne_coldReinit cfg s al market st hgate hrec hcount]
        funext k
        rw [hstep]
        show States.update s market.ID (coldReinit st market) k = _
        unfold States.update
        rfl
      · have hstep : stepStateOf cfg s market = some (warmNext cfg st market) := by
          simp [stepStateOf, hgate, hrec, hcount]
        rw [processOne_warm cfg s al market st hgate hrec hcount]
        funext k
        rw [hstep]
        show States.update s market.ID (warmNext cfg st market) k = _
        unfold States.update
        rfl
  · have hg : shouldProcessMarket cfg market = false := by simpa using hgate
    have hstep : stepStateOf cfg s market = s market.ID := by
      simp [stepStateOf, hg]
    rw [processOne_skip cfg s al market hg]
    funext k
    rw [hstep]
    show s k = _
    by_cases hk : k = market.ID
    · subst hk
      cases hsk : s market.ID <;> simp [hsk]
    · rw [if_neg hk]

lemma processOne_snd (cfg : Config) (s : States) (al : List Alert) (market : Market) :
    (processOne cfg s al market).2 =
      al ++ (match stepAlertOf cfg s market with | some a => [a] | none => []) := by
  by_cases hgate : shouldProcessMarket cfg market = true
  · cases hrec : s market.ID with
    | none =>
      have hstep : stepAlertOf cfg s market = none := by
        simp [stepAlertOf, hgate, hrec]
      rw [processOne_cold cfg s al market hgate hrec, hstep]
      simp
    | some st =>
      by_cases hcount : st.WelfordCount = 0
      · have hstep : stepAlertOf cfg s market = none := by
          simp [stepAlertOf, hgate, hrec, hcount]
        rw [processOne_coldReinit cfg s al market st hgate hrec hcount, hstep]
        simp
      · rw [processOne_warm cfg s al market st hgate hrec hcount]
        by_cases halert : (alertOf cfg st market (volDelta st market)).IsAlert = true
        · have hstep : stepAlertOf cfg s market =
              some (alertOf cfg st market (volDelta st market)) := by
            simp [stepAlertOf, hgate, hrec, hcount, halert]
          rw [hstep]
          simp [halert]
        · have hstep : stepAlertOf cfg s market = none := by
            simp [stepAlertOf, hgate, hrec, hcount, halert]
          rw [hstep]
          simp [halert]
  · have hg : shouldProcessMarket cfg market = false := by simpa using hgate
    have hstep : stepAlertOf cfg s market = none := by
      simp [stepAlertOf, hg]
    rw [processOne_skip cfg s al market hg, hstep]
    simp

/-- stepStateOf and stepAlertOf read the table only at the market's own key. -/
lemma stepStateOf_congr (cfg : Config) (s s2 : States) (m : Market)
    (h : s m.ID = s2 m.ID) : stepStateOf cfg s m = stepStateOf cfg s2 m := by
  unfold stepStateOf
  rw [h]

lemma stepAlertOf_congr (cfg : Config) (s s2 : States) (m : Market)
    (h : s m.ID = s2 m.ID) : stepAlertOf cfg s m = stepAlertOf cfg s2 m := by
  unfold stepAlertOf
  rw [h]

lemma stepStateOf_none (cfg : Config) (s : States) (m : Market)
    (h : stepStateOf cfg s m = none) : s m.ID = none := by
  unfold stepStateOf at h
  by_cases hgate : shouldProcessMarket cfg m = true
  · rw [if_pos hgate] at h
    cases hrec : s m.ID with
    | none => rfl
    | some st =>
      rw [hrec] at h
      by_cases hc : st.WelfordCount = 0 <;> simp [hc] at h
  · rw [if_neg hgate] at h
    exact h

lemma match_stepStateOf (cfg : Config) (s : States) (m : Market) :
    (match stepStateOf cfg s m with
     | some st => some st
     | none => s m.ID) = stepStateOf cfg s m := by
  cases hst : stepStateOf cfg s m with
  | some st => rfl
  | none => exact stepStateOf_none cfg s m hst

lemma foldl_shift (cfg : Config) :
    ∀ (ms : List Market) (s : States) (al : List Alert),
      (ms.foldl (fun acc m => processOne cfg acc.1 acc.2 m) (s, al)).1 =
        (ms.foldl (fun acc m => processOne cfg acc.1 acc.2 m) (s, [])).1 ∧
      (ms.foldl (fun acc m => processOne cfg acc.1 acc.2 m) (s, al)).2 =
        al ++ (ms.foldl (fun acc m => processOne cfg acc.1 acc.2 m) (s, [])).2 := by
  intro ms
  induction ms with
  | nil => intro s al; exact ⟨rfl, (List.append_nil al).symm⟩
  | cons m rest ih =>
    intro s al
    rw [List.foldl_cons, List.foldl_cons]
    have hpair : processOne cfg s al m =
        ((processOne cfg s [] m).1, al ++ (processOne cfg s [] m).2) := by
      refine Prod.ext ?_ ?_
      · rw [processOne_fst, processOne_fst]
      · rw [processOne_snd, processOne_snd]
        simp
    have hpair0 : processOne cfg s [] m =
        ((processOne cfg s [] m).1, (processOne cfg s [] m).2) := rfl
    rw [hpair]
    obtain ⟨ih1, ih2⟩ := ih (processOne cfg s [] m).1 (al ++ (processOne cfg s [] m).2)
    obtain ⟨ih1b, ih2b⟩ := ih (processOne cfg s [] m).1 (processOne cfg s [] m).2
    constructor
    · rw [ih1]
      conv_rhs => rw [hpair0]
      rw [ih1b]
    · rw [ih2]
      conv_rhs => rw [hpair0]
      rw [ih2b, List.append_assoc]

lemma ProcessPoll_char (cfg : Config) :
    ∀ (ms : List Market) (s : States), (ms.map Market.ID).Nodup →
      (∀ k, (ProcessPoll cfg s ms).1 k =
        (match ms.find? (fun m => m.ID == k) with
         | some m => stepStateOf cfg s m
         | none => s k)) ∧
      (ProcessPoll cfg s ms).2 = ms.filterMap (stepAlertOf cfg s) := by
  intro ms
  induction ms with
  | nil => intro s _; exact ⟨fun k => rfl, rfl⟩
  | cons m rest ih =>
    intro s hnd
    rw [List.map_cons, List.nodup_cons] at hnd
    obtain ⟨hmid, hndr⟩ := hnd
    have hX1 : (processOne cfg s [] m).1 = fun k =>
        if k = m.ID then
          (match stepStateOf cfg s m with
           | some st => some st
           | none => s k)
        else s k := processOne_fst cfg s [] m
    have hX1k : ∀ k, k ≠ m.ID → (processOne cfg s [] m).1 k = s k := by
      intro k hk
      rw [hX1]
      simp [hk]
    have hX1m : (processOne cfg s [] m).1 m.ID = stepStateOf cfg s m := by
      rw [hX1]
      simp only [if_pos rfl]
      exact match_stepStateOf cfg s m
    have hcongr : ∀ m2 ∈ rest, (processOne cfg s [] m).1 m2.ID = s m2.ID := by
      intro m2 hm2
      apply hX1k
      intro he
      exact hmid (he ▸ List.mem_map_of_mem Market.ID hm2)
    have hstep0 : ProcessPoll cfg s (m :: rest) =
        rest.foldl (fun acc m2 => processOne cfg acc.1 acc.2 m2) (processOne cfg s [] m) := by
      unfold ProcessPoll
      rw [List.foldl_cons]
    have hpair0 : processOne cfg s [] m =
        ((processOne cfg s [] m).1, (processOne cfg s [] m).2) := rfl
    obtain ⟨hsh1, hsh2⟩ :=
      foldl_shift cfg rest (processOne cfg s [] m).1 (processOne cfg s [] m).2
    obtain ⟨ih1, ih2⟩ := ih (processOne cfg s [] m).1 hndr
    have ih1f : ∀ k, (rest.foldl (fun acc m2 => processOne cfg acc.1 acc.2 m2)
        ((processOne cfg s [] m).1, [])).1 k =
        (match rest.find? (fun m2 => m2.ID == k) with
         | some m2 => stepStateOf cfg (processOne cfg s [] m).1 m2
         | none => (processOne cfg s [] m).1 k) := ih1
    have ih2f : (rest.foldl (fun acc m2 => processOne cfg acc.1 acc.2 m2)
        ((processOne cfg s [] m).1, [])).2 =
        rest.filterMap (stepAlertOf cfg (processOne cfg s [] m).1) := ih2
    constructor
    · intro k
      rw [hstep0, hpair0, hsh1, ih1f k]
      by_cases hk : m.ID = k
      · subst hk
        have hfind : (m :: rest).find? (fun m2 => m2.ID == m.ID) = some m :=
          List.find?_cons_of_pos rest (by simp)
      -- any series in the tail has a different id, so the tail leaves it alone
        have hnone : rest.find? (fun m2 => m2.ID == m.ID) = none := by
          apply List.find?_eq_none.mpr
          intro m2 hm2
          simp only [beq_iff_eq]
          intro he
          exact hmid (he ▸ List.mem_map_of_mem Market.ID hm2)
        rw [hfind, hnone]
        exact hX1m
      · have hfind : (m :: rest).find? (fun m2 => m2.ID == k) =
            rest.find? (fun m2 => m2.ID == k) := by
          apply List.find?_cons_of_neg
          simp [hk]
        rw [hfind]
        cases hf : rest.find? (fun m2 => m2.ID == k) with
        | none =>
          exact hX1k k (fun he => hk he.symm)
        | some m2 =>
          exact stepStateOf_congr cfg (processOne cfg s [] m).1 s m2
            (hcongr m2 (List.mem_of_find?_eq_some hf))
    · rw [hstep0, hpair0, hsh2, ih2f]
      have hmapr : rest.filterMap (stepAlertOf cfg (processOne cfg s [] m).1) =
          rest.filterMap (stepAlertOf cfg s) :=
        List.filterMap_congr (fun m2 hm2 =>
          stepAlertOf_congr cfg (processOne cfg s [] m).1 s m2 (hcongr m2 hm2))
      rw [hmapr, processOne_snd, List.filterMap_cons]
      cases hsa : stepAlertOf cfg s m <;> simp

/-- A sequence of polling cycles: states threaded through, per-cycle alert
lists collected in order. -/
noncomputable def runCycles (cfg : Config) (s : States) (polls : List (List Market)) :
    States × List (List Alert) :=
  polls.foldl (fun acc ms =>
    ((ProcessPoll cfg acc.1 ms).1, acc.2 ++ [(ProcessPoll cfg acc.1 ms).2])) (s, [])

lemma market_id_unique (ms : List Market) (hnd : (ms.map Market.ID).Nodup)
    (m1 m2 : Market) (h1 : m1 ∈ ms) (h2 : m2 ∈ ms) (he : m1.ID = m2.ID) : m1 = m2 :=
  List.inj_on_of_nodup_map hnd h1 h2 he

lemma find?_perm_nodup (ms ms2 : List Market) (hperm : List.Perm ms ms2)
    (hnd : (ms.map Market.ID).Nodup) (k : String) :
    ms.find? (fun m => m.ID == k) = ms2.find? (fun m => m.ID == k) := by
  cases hf : ms.find? (fun m => m.ID == k) with
  | none =>
    have hall := List.find?_eq_none.mp hf
    symm
    apply List.find?_eq_none.mpr
    intro m hm
    exact hall m (hperm.mem_iff.mpr hm)
  | some m =>
    have hmem : m ∈ ms := List.mem_of_find?_eq_some hf
    have hp := List.find?_some hf
    have hmem2 : m ∈ ms2 := hperm.mem_iff.mp hmem
    have hsome : (ms2.find? (fun m2 => m2.ID == k)).isSome :=
      List.find?_isSome.mpr ⟨m, hmem2, hp⟩
    cases hf2 : ms2.find? (fun m2 => m2.ID == k) with
    | none =>
      rw [hf2] at hsome
      simp at hsome
    | some m2 =>
      have hm2 : m2 ∈ ms := hperm.mem_iff.mpr (List.mem_of_find?_eq_some hf2)
      have hp2 := List.find?_some hf2
      have heq : m = m2 := by
        apply market_id_unique ms hnd m m2 hmem hm2
        have e1 : m.ID = k := by simpa using hp
        have e2 : m2.ID = k := by simpa using hp2
        rw [e1, e2]
      rw [heq]

/-- Claim C9: the engine is a deterministic function of configuration, state
and input snapshots (identical runs produce identical state tables and alert
lists at every cycle), and — for a poll whose snapshots carry pairwise
distinct series ids — processing order across series affects neither any
series' stored state nor any series' emitted alert: a permuted poll yields
the same state table, a permutation of the same alert list, and the same
per-series alert contribution stepAlertOf / stored state stepStateOf. -/
theorem C9_determinism_order_independence (cfg : Config) (s : States)
    (ms ms2 : List Market) (hperm : List.Perm ms ms2)
    (hnd : (ms.map Market.ID).Nodup) :
    (∀ (s2 : States) (polls polls2 : List (List Market)),
      s = s2 → polls = polls2 → runCycles cfg s polls = runCycles cfg s2 polls2) ∧
    (∀ k, (ProcessPoll cfg s ms).1 k = (ProcessPoll cfg s ms2).1 k) ∧
    List.Perm (ProcessPoll cfg s ms).2 (ProcessPoll cfg s ms2).2 ∧
    (ProcessPoll cfg s ms).2 = ms.filterMap (stepAlertOf cfg s) ∧
    (ProcessPoll cfg s ms2).2 = ms2.filterMap (stepAlertOf cfg s) ∧
    (∀ m ∈ ms, (ProcessPoll cfg s ms).1 m.ID = stepStateOf cfg s m ∧
      (ProcessPoll cfg s ms2).1 m.ID = stepStateOf cfg s m) := by
  have hnd2 : (ms2.map Market.ID).Nodup := (hperm.map Market.ID).nodup_iff.mp hnd
  obtain ⟨hchar1, halerts1⟩ := ProcessPoll_char cfg ms s hnd
  obtain ⟨hchar2, halerts2⟩ := ProcessPoll_char cfg ms2 s hnd2
  have hstates : ∀ k, (ProcessPoll cfg s ms).1 k = (ProcessPoll cfg s ms2).1 k := by
    intro k
    rw [hchar1 k, hchar2 k, find?_perm_nodup ms ms2 hperm hnd k]
  refine ⟨?_, hstates, ?_, halerts1, halerts2, ?_⟩
  · intro s2 polls polls2 hs hp
    rw [hs, hp]
  · rw [halerts1, halerts2]
    exact hperm.filterMap (stepAlertOf cfg s)
  · intro m hm
    have hsome : (ms.find? (fun m2 => m2.ID == m.ID)).isSome :=
      List.find?_isSome.mpr ⟨m, hm, by simp⟩
    cases hf : ms.find? (fun m2 => m2.ID == m.ID) with
    | none =>
      rw [hf] at hsome
      simp at hsome
    | some m2 =>
      have hm2 : m2 ∈ ms := List.mem_of_find?_eq_some hf
      have heq : m2 = m :=
        market_id_unique ms hnd m2 m hm2 hm (by simpa using List.find?_some hf)
      have h1 : (ProcessPoll cfg s ms).1 m.ID = stepStateOf cfg s m := by
        rw [hchar1 m.ID, hf, heq]
      refine ⟨h1, ?_⟩
      rw [← hstates m.ID]
      exact h1

/-- A second market with a distinct series id, for the C9 witness. -/
noncomputable def C9marketB : Market :=
  { C10market 1 with ID := "ev2:mk", EventID := "ev2" }

/-- Witness for C9: two markets with distinct ids processed in both orders. -/
theorem C9_witness :
    (∀ (s2 : States) (polls polls2 : List (List Market)),
      States.empty = s2 → polls = polls2 →
      runCycles DefaultConfig States.empty polls = runCycles DefaultConfig s2 polls2) ∧
    (∀ k, (ProcessPoll DefaultConfig States.empty [C10market 1, C9marketB]).1 k =
      (ProcessPoll DefaultConfig States.empty [C9marketB, C10market 1]).1 k) ∧
    List.Perm (ProcessPoll DefaultConfig States.empty [C10market 1, C9marketB]).2
      (ProcessPoll DefaultConfig States.empty [C9marketB, C10market 1]).2 ∧
    ((ProcessPoll DefaultConfig States.empty [C10market 1, C9marketB]).2 =
      [C10market 1, C9marketB].filterMap (stepAlertOf DefaultConfig States.empty)) ∧
    ((ProcessPoll DefaultConfig States.empty [C9marketB, C10market 1]).2 =
      [C9marketB, C10market 1].filterMap (stepAlertOf DefaultConfig States.empty)) ∧
    (∀ m ∈ [C10market 1, C9marketB],
      (ProcessPoll DefaultConfig States.empty [C10market 1, C9marketB]).1 m.ID =
        stepStateOf DefaultConfig States.empty m ∧
      (ProcessPoll DefaultConfig States.empty [C9marketB, C10market 1]).1 m.ID =
        stepStateOf DefaultConfig States.empty m) :=
  C9_determinism_order_independence DefaultConfig States.empty
    [C10market 1, C9marketB] [C9marketB, C10market 1]
    (List.Perm.swap C9marketB (C10market 1) [])
    (by simp [C10market, C9marketB])

/-! ### Claim C7: cold-start cycle then a full alert on the second cycle -/

/-- The second-cycle snapshot of the C7 scenario: p = 0.7, 24h volume $150K,
liquidity $50K, same series. -/
noncomputable def C7market2 : Market := { C10market 0.7 with Volume24hr := 150000 }

lemma C7_gate : shouldProcessMarket DefaultConfig C7market2 = true := by
  unfold shouldProcessMarket C7market2 C10market DefaultConfig
  rw [if_neg (by simp)]
  simp only [Bool.or_eq_true, decide_eq_true_eq]
  left
  left
  norm_num

set_option maxHeartbeats 1600000 in
/-- On the interval (2.9, 3) the Abramowitz–Stegun polynomial approximation
stays above 0.9. -/
lemma erf_lower_bound (x : ℝ) (h1 : 2.9 < x) (h2 : x < 3) : 0.9 < erf x := by
  simp only [erf]
  rw [if_neg (by push_neg; linarith), abs_of_pos (by linarith : (0:ℝ) < x), one_mul]
  set t := 1 / (1 + 0.3275911 * x) with htdef
  have hdenl : (1.95:ℝ) < 1 + 0.3275911 * x := by nlinarith
  have hdenu : 1 + 0.3275911 * x < 1.99 := by nlinarith
  have ht0 : (0.5:ℝ) < t := by
    rw [htdef, lt_div_iff₀ (by linarith)]
    nlinarith
  have htU : t < 0.52 := by
    rw [htdef, div_lt_iff₀ (by linarith)]
    nlinarith
  have h1a : (-0.93:ℝ) < 1.061405429 * t + -1.453152027 := by linarith
  have h1b : 1.061405429 * t + -1.453152027 < -0.9 := by linarith
  have h2a : (0.93:ℝ) < (1.061405429 * t + -1.453152027) * t + 1.421413741 := by nlinarith
  have h2b : (1.061405429 * t + -1.453152027) * t + 1.421413741 < 0.98 := by nlinarith
  have h3a : (0.18:ℝ) <
      ((1.061405429 * t + -1.453152027) * t + 1.421413741) * t + -0.284496736 := by nlinarith
  have h3b : ((1.061405429 * t + -1.453152027) * t + 1.421413741) * t + -0.284496736 <
      0.23 := by nlinarith
  have h4a : (0.34:ℝ) <
      (((1.061405429 * t + -1.453152027) * t + 1.421413741) * t + -0.284496736) * t +
        0.254829592 := by nlinarith
  have h4b : (((1.061405429 * t + -1.453152027) * t + 1.421413741) * t + -0.284496736) * t +
      0.254829592 < 0.38 := by nlinarith
  have hPa : (0:ℝ) <
      ((((1.061405429 * t + -1.453152027) * t + 1.421413741) * t + -0.284496736) * t +
        0.254829592) * t := by nlinarith
  have hPb : ((((1.061405429 * t + -1.453152027) * t + 1.421413741) * t + -0.284496736) * t +
      0.254829592) * t < 0.2 := by nlinarith
  have hx8 : (8.41:ℝ) < x * x := by nlinarith
  have h9 : (9.41:ℝ) ≤ Real.exp (x * x) := by
    have h := Real.add_one_le_exp (x * x)
    linarith
  have hE0 : (0:ℝ) < Real.exp (-(x * x)) := Real.exp_pos _
  have hEU : Real.exp (-(x * x)) < 0.107 := by
    rw [Real.exp_neg]
    have hE : (0:ℝ) < Real.exp (x * x) := Real.exp_pos _
    have hinv : Real.exp (x * x) * (Real.exp (x * x))⁻¹ = 1 :=
      mul_inv_cancel₀ (ne_of_gt hE)
    have hnn : (0:ℝ) ≤ (Real.exp (x * x))⁻¹ := inv_nonneg.mpr (le_of_lt hE)
    nlinarith
  nlinarith [mul_pos hPa hE0,
    mul_lt_mul_of_pos_left hEU hPa,
    mul_lt_mul_of_pos_right hPb hE0]

lemma C7_hdist : (0.1445:ℝ) < hellingerDist 0.5 0.7 := by
  have hform : hellingerDist 0.5 0.7 =
      Real.sqrt (1 - (Real.sqrt 0.35 + Real.sqrt 0.15)) := by
    unfold hellingerDist
    norm_num
  have h35 : Real.sqrt 0.35 < 0.5917 :=
    (Real.sqrt_lt' (by norm_num)).mpr (by norm_num)
  have h15 : Real.sqrt 0.15 < 0.3874 :=
    (Real.sqrt_lt' (by norm_num)).mpr (by norm_num)
  rw [hform]
  rw [show (0.1445:ℝ) = 0.1445 from rfl]
  refine (Real.lt_sqrt (by norm_num)).mpr ?_
  nlinarith

lemma C7_instEnergy : (12:ℝ) < instEnergyOf (coldInit (C10market 0.5)) C7market2 := by
  unfold instEnergyOf
  have hlp : (coldInit (C10market 0.5)).LastPrice = 0.5 := rfl
  have hyp : C7market2.YesProbability = 0.7 := rfl
  have hvol : C7market2.Volume24hr = 150000 := rfl
  have hdep : (coldInit (C10market 0.5)).AvgDepth = 50000 := rfl
  have hsig : (coldInit (C10market 0.5)).LastSigma = 0.01 := rfl
  rw [hlp, hyp, hvol, hdep, hsig]
  have heps : Epsilon = 1e-9 := rfl
  rw [heps]
  have hden : (0:ℝ) < 50000 + 1e-9 := by norm_num
  have hx1 : (2.9:ℝ) < 150000 / (50000 + 1e-9) := by
    rw [lt_div_iff₀ hden]
    norm_num
  have hx2 : (150000:ℝ) / (50000 + 1e-9) < 3 := by
    rw [div_lt_iff₀ hden]
    norm_num
  have herf : (0.9:ℝ) < erf (150000 / (50000 + 1e-9)) :=
    erf_lower_bound _ hx1 hx2
  have hh := C7_hdist
  have hdpos : (0:ℝ) < 0.01 + 1e-9 := by norm_num
  rw [lt_div_iff₀ hdpos]
  nlinarith

lemma C7_score : DefaultConfig.Threshold <
    finalScoreOf DefaultConfig (coldInit (C10market 0.5)) C7market2 := by
  have hE := C7_instEnergy
  have hth : DefaultConfig.Threshold = 3 := by norm_num [DefaultConfig]
  rw [hth]
  unfold finalScoreOf tcOf tcStateOf UpdateTCBuffer
  rw [if_pos (by simp [coldInit, DefaultConfig])]
  have hdir : directionOf (coldInit (C10market 0.5)) C7market2 = 1 := by
    unfold directionOf
    have hyp : C7market2.YesProbability = 0.7 := rfl
    have hlp : (coldInit (C10market 0.5)).LastPrice = 0.5 := rfl
    rw [hyp, hlp]
    norm_num
  rw [hdir, mul_one]
  have hbuf : (coldInit (C10market 0.5)).TCBuffer = [] := rfl
  rw [hbuf]
  simp only [List.nil_append, List.sum_cons, List.sum_nil, add_zero]
  rw [abs_of_pos (by linarith : (0:ℝ) < instEnergyOf (coldInit (C10market 0.5)) C7market2)]
  have hsq : (3.4:ℝ) < Real.sqrt (instEnergyOf (coldInit (C10market 0.5)) C7market2 +
      Epsilon) := by
    refine (Real.lt_sqrt (by norm_num)).mpr ?_
    have heps : Epsilon = 1e-9 := rfl
    rw [heps]
    nlinarith
  nlinarith [Real.sqrt_nonneg (instEnergyOf (coldInit (C10market 0.5)) C7market2 + Epsilon)]

lemma C7_cycle2 :
    ProcessPoll DefaultConfig
        (States.update States.empty "ev:mk" (coldInit (C10market 0.5))) [C7market2] =
      (States.update (States.update States.empty "ev:mk" (coldInit (C10market 0.5))) "ev:mk"
        (warmNext DefaultConfig (coldInit (C10market 0.5)) C7market2),
       [alertOf DefaultConfig (coldInit (C10market 0.5)) C7market2
          (volDelta (coldInit (C10market 0.5)) C7market2)]) := by
  have hstep : ProcessPoll DefaultConfig
      (States.update States.empty "ev:mk" (coldInit (C10market 0.5))) [C7market2] =
      (States.update (States.update States.empty "ev:mk" (coldInit (C10market 0.5)))
        C7market2.ID (warmNext DefaultConfig (coldInit (C10market 0.5)) C7market2),
       if (alertOf DefaultConfig (coldInit (C10market 0.5)) C7market2
            (volDelta (coldInit (C10market 0.5)) C7market2)).IsAlert then
         [] ++ [alertOf DefaultConfig (coldInit (C10market 0.5)) C7market2
            (volDelta (coldInit (C10market 0.5)) C7market2)]
       else []) := by
    show processOne DefaultConfig
        (States.update States.empty "ev:mk" (coldInit (C10market 0.5))) [] C7market2 = _
    exact processOne_warm _ _ _ _ (coldInit (C10market 0.5)) C7_gate
      (States.update_same _ _ _) (by simp [coldInit])
  rw [hstep]
  have halert : (alertOf DefaultConfig (coldInit (C10market 0.5)) C7market2
      (volDelta (coldInit (C10market 0.5)) C7market2)).IsAlert = true := by
    show decide (finalScoreOf DefaultConfig (coldInit (C10market 0.5)) C7market2 >
      DefaultConfig.Threshold) = true
    exact decide_eq_true C7_score
  rw [halert]
  rfl

/-- Claim C7: processMarket's alert always carries the previously stored
probability as OldProb, the current one as NewProb, their absolute difference
as PriceDelta and the supplied volume delta; ProcessPoll's volume delta is
floored at zero; and in the concrete scenario (p 0.50 with $100K volume and
$50K liquidity, then p 0.70 with $150K volume) the first cycle emits no alert
while the second emits exactly one alert with old probability 0.50, new
probability 0.70, probability delta 0.20 within 1e-9, volume delta 50000, and
a positive final score. -/
theorem C7_cold_start_scenario :
    (∀ (cfg : Config) (state : MarketState) (market : Market) (vd : ℝ),
      (processMarket cfg state market vd).2.OldProb = state.LastPrice ∧
      (processMarket cfg state market vd).2.NewProb = market.YesProbability ∧
      (processMarket cfg state market vd).2.PriceDelta =
        |market.YesProbability - state.LastPrice| ∧
      (processMarket cfg state market vd).2.VolumeDelta = vd) ∧
    (∀ (st : MarketState) (market : Market),
      volDelta st market = max 0 (market.Volume24hr - st.LastVolume)) ∧
    (ProcessPoll DefaultConfig States.empty [C10market 0.5]).2 = [] ∧
    (∃ a : Alert,
      (ProcessPoll DefaultConfig
        (ProcessPoll DefaultConfig States.empty [C10market 0.5]).1 [C7market2]).2 = [a] ∧
      a.OldProb = 0.5 ∧ a.NewProb = 0.7 ∧ |a.PriceDelta - 0.2| ≤ 1e-9 ∧
      a.VolumeDelta = 50000 ∧ 0 < a.FinalScore) := by
  refine ⟨fun cfg state market vd => ⟨rfl, rfl, rfl, rfl⟩, ?_, ?_, ?_⟩
  · intro st market
    unfold volDelta
    split
    · rw [eq_comm, max_eq_left]
      linarith [le_of_lt (by assumption : market.Volume24hr - st.LastVolume < 0)]
    · rw [eq_comm, max_eq_right]
      linarith [not_lt.mp (by assumption : ¬market.Volume24hr - st.LastVolume < 0)]
  · rw [C10_cycle1]
  · refine ⟨alertOf DefaultConfig (coldInit (C10market 0.5)) C7market2
      (volDelta (coldInit (C10market 0.5)) C7market2), ?_, rfl, rfl, ?_, ?_, ?_⟩
    · rw [C10_cycle1]
      show (ProcessPoll DefaultConfig
        (States.update States.empty "ev:mk" (coldInit (C10market 0.5))) [C7market2]).2 = _
      rw [C7_cycle2]
    · show |(|C7market2.YesProbability - (coldInit (C10market 0.5)).LastPrice|) - 0.2| ≤ 1e-9
      have h1 : C7market2.YesProbability = 0.7 := rfl
      have h2 : (coldInit (C10market 0.5)).LastPrice = 0.5 := rfl
      have h3 : |(0.7:ℝ) - 0.5| = 0.2 := by
        rw [abs_of_nonneg (by norm_num)]
        norm_num
      rw [h1, h2, h3, sub_self, abs_zero]
      norm_num
    · show volDelta (coldInit (C10market 0.5)) C7market2 = 50000
      unfold volDelta
      have h1 : C7market2.Volume24hr = 150000 := rfl
      have h2 : (coldInit (C10market 0.5)).LastVolume = 100000 := rfl
      rw [h1, h2]
      norm_num
    · show (0:ℝ) < finalScoreOf DefaultConfig (coldInit (C10market 0.5)) C7market2
      have h := C7_score
      have hth : DefaultConfig.Threshold = 3 := by norm_num [DefaultConfig]
      rw [hth] at h
      linarith

end PolyOracle
